import Mathlib

/-!
Verification model of the ICPC training timer (`src/App.tsx`).

The React component in `App.tsx` is a state machine over eight pieces of
`useState` state, persisted field-by-field to `localStorage`.  This file
embeds that state machine shallowly:

* JavaScript objects used as dictionaries (`teamActions`, `problemStates`,
  `actionTimers`) are modelled as insertion-ordered association lists
  (`jsGet` / `jsSet` mirror property read and property write: a write
  replaces the value of the first matching key in place, otherwise appends,
  exactly like JS object insertion order).
* `localStorage` is an association list from key strings to value strings.
* `JSON.stringify` / `JSON.parse` (platform functions, not repository code)
  are modelled by concrete executable encoders and recursive-descent
  decoders for the exact value shapes the program stores.  The decoder
  returns `none` where `JSON.parse` would throw.  Escaping is modelled for
  the quote and backslash characters; control-character escapes are not
  modelled (no string the program ever stores contains control characters).
* `String(n)` / `parseInt` are modelled by executable decimal printers and
  a parser with JavaScript `parseInt` semantics on the strings the program
  stores (leading sign, maximal digit prefix, `none` for NaN).
* The two 1 Hz `setInterval` effects (clock and ledger accrual, lines
  106-118 and 156-188 of the source) fire together while `isRunning`; a
  tick is modelled as one atomic `tick` step.

All recursion is structural (fuel-based where needed) so every definition
evaluates by kernel reduction.
-/

/-! ## JavaScript object dictionaries as association lists -/

/-- Property read `obj[k]` on a JS object modelled as an association list
(first matching key wins; JS objects have unique keys). -/
def jsGet {α : Type} (l : List (String × α)) (k : String) : Option α :=
  match l with
  | [] => none
  | (k', v) :: rest => if k' = k then some v else jsGet rest k

/-- Property write `obj[k] = v`: replaces the first matching key in place,
otherwise appends, preserving JS object insertion order. -/
def jsSet {α : Type} (l : List (String × α)) (k : String) (v : α) : List (String × α) :=
  match l with
  | [] => [(k, v)]
  | (k', v') :: rest => if k' = k then (k', v) :: rest else (k', v') :: jsSet rest k v

/-- Property delete / `localStorage.removeItem`. -/
def jsRemove {α : Type} (l : List (String × α)) (k : String) : List (String × α) :=
  match l with
  | [] => []
  | (k', v') :: rest => if k' = k then rest else (k', v') :: jsRemove rest k

theorem jsGet_jsSet {α : Type} (l : List (String × α)) (k k' : String) (v : α) :
    jsGet (jsSet l k v) k' = if k' = k then some v else jsGet l k' := by
  induction l with
  | nil =>
    by_cases h : k' = k
    · subst h; simp [jsGet, jsSet]
    · simp [jsGet, jsSet, h, Ne.symm h]
  | cons hd tl ih =>
    obtain ⟨k₀, v₀⟩ := hd
    by_cases h0 : k₀ = k
    · subst h0
      by_cases h1 : k₀ = k'
      · subst h1; simp [jsGet, jsSet]
      · simp [jsGet, jsSet, h1, Ne.symm h1]
    · by_cases h1 : k₀ = k'
      · subst h1
        simp [jsGet, jsSet, h0, Ne.symm h0]
      · simp [jsGet, jsSet, h0, h1, ih]

theorem jsGet_jsSet_self {α : Type} (l : List (String × α)) (k : String) (v : α) :
    jsGet (jsSet l k v) k = some v := by
  simp [jsGet_jsSet]

theorem jsGet_jsSet_ne {α : Type} (l : List (String × α)) (k k' : String) (v : α)
    (h : k' ≠ k) : jsGet (jsSet l k v) k' = jsGet l k' := by
  simp [jsGet_jsSet, h]

theorem jsGet_jsRemove {α : Type} (l : List (String × α)) (k k' : String) (h : k' ≠ k) :
    jsGet (jsRemove l k) k' = jsGet l k' := by
  induction l with
  | nil => simp [jsRemove]
  | cons hd tl ih =>
    obtain ⟨k₀, v₀⟩ := hd
    by_cases h0 : k₀ = k
    · subst h0
      simp [jsRemove, jsGet, Ne.symm h]
    · simp [jsRemove, jsGet, h0, ih]

/-- Keys of an association list, in order. -/
def keyList {α : Type} (l : List (String × α)) : List String := l.map Prod.fst

theorem keyList_jsSet {α : Type} (l : List (String × α)) (k : String) (v : α) :
    keyList (jsSet l k v) = if (jsGet l k).isSome then keyList l else keyList l ++ [k] := by
  induction l with
  | nil => simp [jsSet, jsGet, keyList]
  | cons hd tl ih =>
    obtain ⟨k₀, v₀⟩ := hd
    by_cases h0 : k₀ = k
    · subst h0; simp [jsSet, jsGet, keyList]
    · simp only [jsSet, jsGet, keyList, List.map_cons, if_neg h0]
      rw [show List.map (Prod.fst (α := String) (β := α)) (jsSet tl k v) = keyList (jsSet tl k v) from rfl, ih]
      by_cases hs : (jsGet tl k).isSome <;> simp [hs, keyList]

theorem jsGet_isSome_jsSet {α : Type} (l : List (String × α)) (k k' : String) (v : α)
    (hk : (jsGet l k).isSome) :
    (jsGet (jsSet l k v) k').isSome = (jsGet l k').isSome := by
  rw [jsGet_jsSet]
  by_cases h : k' = k
  · subst h; simp [hk]
  · simp [h]

theorem mem_keyList_of_jsGet_isSome {α : Type} (l : List (String × α)) (q : String)
    (h : (jsGet l q).isSome) : q ∈ keyList l := by
  induction l with
  | nil => simp [jsGet] at h
  | cons hd tl ih =>
    obtain ⟨k₀, v₀⟩ := hd
    by_cases h0 : k₀ = q
    · subst h0; simp [keyList]
    · simp [jsGet, h0] at h
      simp [keyList]
      right
      simpa [keyList] using ih h

theorem jsGet_eq_none_of_not_mem {α : Type} (l : List (String × α)) (q : String)
    (h : q ∉ keyList l) : jsGet l q = none := by
  cases hgt : jsGet l q with
  | none => rfl
  | some w => exact absurd (mem_keyList_of_jsGet_isSome l q (by simp [hgt])) h

/-- Two association lists with the same key sequence, no duplicate keys, and
pointwise equal lookups are equal. -/
theorem assoc_ext {α : Type} (l l' : List (String × α))
    (hk : keyList l = keyList l') (hnd : (keyList l).Nodup)
    (hget : ∀ q, jsGet l q = jsGet l' q) : l = l' := by
  induction l generalizing l' with
  | nil =>
    cases l' with
    | nil => rfl
    | cons hd tl => simp [keyList] at hk
  | cons hd tl ih =>
    obtain ⟨k₀, v₀⟩ := hd
    cases l' with
    | nil => simp [keyList] at hk
    | cons hd' tl' =>
      obtain ⟨k₁, v₁⟩ := hd'
      simp only [keyList, List.map_cons, List.cons.injEq] at hk
      obtain ⟨hkk, hktl⟩ := hk
      subst hkk
      have hv : v₀ = v₁ := by
        have := hget k₀
        simpa [jsGet] using this
      subst hv
      simp only [keyList, List.map_cons, List.nodup_cons] at hnd
      have htl : tl = tl' := by
        apply ih _ hktl hnd.2
        intro q
        by_cases hq : q = k₀
        · subst hq
          rw [jsGet_eq_none_of_not_mem tl q hnd.1,
            jsGet_eq_none_of_not_mem tl' q (by simp only [keyList]; rw [← hktl]; exact hnd.1)]
        · have := hget q
          simpa [jsGet, Ne.symm hq] using this
      rw [htl]

/-! ## Decimal printing and parsing (models JS `String(n)` / `parseInt`) -/

/-- Decimal digit character. -/
def digitChar (n : Nat) : Char := Char.ofNat (48 + n)

theorem digitChar_isDigit : ∀ m, m < 10 → (digitChar m).isDigit = true := by decide

theorem digitVal_digitChar : ∀ m, m < 10 → (digitChar m).toNat - 48 = m := by decide

/-- Fuel-driven decimal printer (fuel ≥ number of digits; structural so the
kernel can evaluate it). -/
def natReprAux : Nat → Nat → List Char
  | 0, _ => []
  | fuel+1, n => if n < 10 then [digitChar n] else natReprAux fuel (n / 10) ++ [digitChar (n % 10)]

/-- Decimal printing of a natural number; models JS `String(n)` /
`JSON.stringify(n)` / template interpolation for the non-negative integers
the program stores. -/
def natReprC (n : Nat) : List Char := natReprAux (n + 1) n

/-- Decimal printing of a JS number that may be negative (`String(n)`). -/
def intReprC (i : Int) : List Char :=
  if i < 0 then '-' :: natReprC (-i).toNat else natReprC i.toNat

def digitsVal (ds : List Char) : Nat := ds.foldl (fun a c => a * 10 + (c.toNat - 48)) 0

/-- Maximal digit prefix of a character list. -/
def spanDigits : List Char → List Char × List Char
  | [] => ([], [])
  | c :: rest =>
    if c.isDigit then
      ((spanDigits rest).1.cons c, (spanDigits rest).2)
    else ([], c :: rest)

/-- Parse a nonempty maximal digit prefix as a natural number, returning the
remaining characters. -/
def parseNatLit (cs : List Char) : Option (Nat × List Char) :=
  match spanDigits cs with
  | (ds, rest) => if ds = [] then none else some (digitsVal ds, rest)

/-- Model of JS `parseInt(s)` on the strings this program encounters: an
optional sign followed by a maximal digit prefix; `none` stands for `NaN`.
(Whitespace trimming and hex prefixes are not modelled; no stored string
uses them.) -/
def parseIntM (s : String) : Option Int :=
  match s.data with
  | [] => none
  | c :: rest =>
    if c = '-' then (parseNatLit rest).map (fun p => -(p.1 : Int))
    else if c = '+' then (parseNatLit rest).map (fun p => (p.1 : Int))
    else (parseNatLit (c :: rest)).map (fun p => (p.1 : Int))

theorem natReprAux_digits (fuel : Nat) : ∀ n, n < fuel →
    ∀ c ∈ natReprAux fuel n, c.isDigit = true := by
  induction fuel with
  | zero => intro n h; omega
  | succ fuel ih =>
    intro n h c hc
    rw [natReprAux] at hc
    split at hc
    · next h10 =>
      simp at hc
      subst hc
      exact digitChar_isDigit n h10
    · next h10 =>
      simp at hc
      rcases hc with hc | hc
      · exact ih (n / 10) (by omega) c hc
      · subst hc
        exact digitChar_isDigit (n % 10) (Nat.mod_lt _ (by omega))

theorem natReprAux_ne_nil (fuel : Nat) : ∀ n, n < fuel → natReprAux fuel n ≠ [] := by
  intro n h
  cases fuel with
  | zero => omega
  | succ fuel =>
    rw [natReprAux]
    split <;> simp

theorem digitsVal_natReprAux (fuel : Nat) : ∀ n, n < fuel →
    digitsVal (natReprAux fuel n) = n := by
  induction fuel with
  | zero => intro n h; omega
  | succ fuel ih =>
    intro n h
    rw [natReprAux]
    split
    · next h10 => simp [digitsVal, digitVal_digitChar n h10]
    · next h10 =>
      simp only [digitsVal, List.foldl_append]
      rw [show (natReprAux fuel (n / 10)).foldl (fun a c => a * 10 + (c.toNat - 48)) 0
            = digitsVal (natReprAux fuel (n / 10)) from rfl]
      rw [ih (n / 10) (by omega)]
      simp [digitVal_digitChar (n % 10) (Nat.mod_lt _ (by omega))]
      omega

theorem natReprC_digits (n : Nat) : ∀ c ∈ natReprC n, c.isDigit = true :=
  natReprAux_digits (n + 1) n (by omega)

theorem natReprC_ne_nil (n : Nat) : natReprC n ≠ [] :=
  natReprAux_ne_nil (n + 1) n (by omega)

theorem digitsVal_natReprC (n : Nat) : digitsVal (natReprC n) = n :=
  digitsVal_natReprAux (n + 1) n (by omega)

/-- Character lists whose head (if any) is not a digit; digit parsing stops
exactly at such a boundary. -/
def headNonDigit : List Char → Prop
  | [] => True
  | c :: _ => c.isDigit = false

theorem spanDigits_append (ds rest : List Char) (hds : ∀ c ∈ ds, c.isDigit = true)
    (hrest : headNonDigit rest) : spanDigits (ds ++ rest) = (ds, rest) := by
  induction ds with
  | nil =>
    cases rest with
    | nil => rfl
    | cons c t =>
      simp only [headNonDigit] at hrest
      simp [spanDigits, hrest]
  | cons c t ih =>
    have hc : c.isDigit = true := hds c (by simp)
    simp only [List.cons_append, spanDigits, hc, if_true, List.append_eq]
    rw [ih (fun c' hc' => hds c' (by simp [hc']))]

theorem parseNatLit_append (n : Nat) (rest : List Char) (hrest : headNonDigit rest) :
    parseNatLit (natReprC n ++ rest) = some (n, rest) := by
  simp only [parseNatLit]
  rw [spanDigits_append (natReprC n) rest (natReprC_digits n) hrest]
  simp [natReprC_ne_nil n, digitsVal_natReprC n]

theorem natReprC_head_digit (n : Nat) :
    ∃ c t, natReprC n = c :: t ∧ c.isDigit = true ∧ c ≠ '-' ∧ c ≠ '+' := by
  cases h : natReprC n with
  | nil => exact absurd h (natReprC_ne_nil n)
  | cons c t =>
    refine ⟨c, t, rfl, ?_, ?_, ?_⟩
    · exact natReprC_digits n c (by rw [h]; simp)
    · intro hc
      have := natReprC_digits n c (by rw [h]; simp)
      rw [hc] at this
      simp [Char.isDigit] at this
    · intro hc
      have := natReprC_digits n c (by rw [h]; simp)
      rw [hc] at this
      simp [Char.isDigit] at this

/-- Round trip for the integer field encodings : `parseInt(String(i)) = i`. -/
theorem parseIntM_intReprC (i : Int) : parseIntM (String.mk (intReprC i)) = some i := by
  by_cases hneg : i < 0
  · simp only [intReprC, if_pos hneg, parseIntM]
    rw [show (natReprC (-i).toNat) = natReprC (-i).toNat ++ [] by simp]
    rw [parseNatLit_append (-i).toNat [] (by trivial)]
    simp
    omega
  · simp only [intReprC, if_neg hneg]
    obtain ⟨c, t, hct, hdig, hminus, hplus⟩ := natReprC_head_digit i.toNat
    simp only [parseIntM, hct]
    rw [if_neg hminus, if_neg hplus, ← hct]
    rw [show (natReprC i.toNat) = natReprC i.toNat ++ [] by simp]
    rw [parseNatLit_append i.toNat [] (by trivial)]
    simp
    omega

theorem parseIntM_nan : parseIntM "NaN" = none := by decide

/-! ## JSON string literals (models `JSON.stringify` / `JSON.parse` on strings) -/

def quoteC : Char := Char.ofNat 34
def backslashC : Char := Char.ofNat 92
def lbraceC : Char := Char.ofNat 123
def rbraceC : Char := Char.ofNat 125
def lbrackC : Char := Char.ofNat 91
def rbrackC : Char := Char.ofNat 93

/-- JSON escaping of one character (quote and backslash; the program never
stores control characters, whose escapes are not modelled). -/
def escChar (c : Char) : List Char :=
  if c = quoteC ∨ c = backslashC then [backslashC, c] else [c]

/-- JSON string literal encoding. -/
def encStrC (s : String) : List Char := quoteC :: s.data.flatMap escChar ++ [quoteC]

/-- Characters of a JSON string literal after the opening quote, unescaping
up to the closing quote; `none` when the literal is unterminated. -/
def parseStrBody : List Char → Option (List Char × List Char)
  | [] => none
  | c :: rest =>
    if c = quoteC then some ([], rest)
    else if c = backslashC then
      match rest with
      | [] => none
      | c2 :: rest2 => (parseStrBody rest2).map (fun p => (c2 :: p.1, p.2))
    else (parseStrBody rest).map (fun p => (c :: p.1, p.2))

/-- Parse a JSON string literal. -/
def parseStr : List Char → Option (String × List Char)
  | [] => none
  | c :: rest =>
    if c = quoteC then (parseStrBody rest).map (fun p => (String.mk p.1, p.2)) else none

theorem backslash_ne_quote : backslashC ≠ quoteC := by decide

theorem parseStrBody_rt (l rest : List Char) :
    parseStrBody (l.flatMap escChar ++ quoteC :: rest) = some (l, rest) := by
  induction l with
  | nil =>
    rw [List.flatMap_nil, List.nil_append, parseStrBody.eq_def]
    simp
  | cons c t ih =>
    rw [List.flatMap_cons]
    by_cases hesc : c = quoteC ∨ c = backslashC
    · rw [show escChar c = [backslashC, c] by simp [escChar, hesc]]
      simp only [List.cons_append, List.append_assoc]
      rw [parseStrBody.eq_def]
      simp [backslash_ne_quote, ih]
    · rw [show escChar c = [c] by simp [escChar, hesc]]
      push_neg at hesc
      simp only [List.cons_append, List.nil_append, List.append_assoc]
      rw [parseStrBody.eq_def]
      simp [hesc.1, hesc.2, ih]

theorem parseStr_rt (s : String) (rest : List Char) :
    parseStr (encStrC s ++ rest) = some (s, rest) := by
  obtain ⟨sd⟩ := s
  simp only [encStrC, List.cons_append, List.append_assoc, List.singleton_append,
    List.nil_append]
  rw [parseStr.eq_def]
  simp [parseStrBody_rt]

/-! ## JSON arrays and objects (comma-separated sequences) -/

/-- Comma-joined encoding of a list of items, as `JSON.stringify` produces
between the brackets. -/
def joinComma {α : Type} (enc : α → List Char) : List α → List Char
  | [] => []
  | [a] => enc a
  | a :: rest => enc a ++ ',' :: joinComma enc rest

theorem joinComma_nil {α : Type} (enc : α → List Char) : joinComma enc [] = [] := rfl

theorem joinComma_single {α : Type} (enc : α → List Char) (a : α) :
    joinComma enc [a] = enc a := rfl

theorem joinComma_cons2 {α : Type} (enc : α → List Char) (a b : α) (t : List α) :
    joinComma enc (a :: b :: t) = enc a ++ ',' :: joinComma enc (b :: t) := rfl

/-- Bracketed encoding of a JSON array or object. -/
def encBracketed {α : Type} (enc : α → List Char) (openC closeC : Char) (l : List α) :
    List Char := openC :: joinComma enc l ++ [closeC]

/-- Parse one or more comma-separated items (fuel-driven, structural). -/
def parseSepItems {α : Type} (pItem : List Char → Option (α × List Char)) :
    Nat → List Char → Option (List α × List Char)
  | 0, _ => none
  | fuel+1, cs =>
    match pItem cs with
    | none => none
    | some (a, rest) =>
      match rest with
      | [] => some ([a], [])
      | c :: rest2 =>
        if c = ',' then
          match parseSepItems pItem fuel rest2 with
          | none => none
          | some (l, r) => some (a :: l, r)
        else some ([a], c :: rest2)

/-- Contents of a bracketed sequence after the opening bracket. -/
def parseBracketedTail {α : Type} (pItem : List Char → Option (α × List Char))
    (closeC : Char) : List Char → Option (List α × List Char)
  | [] => none
  | c2 :: rest2 =>
    if c2 = closeC then some ([], rest2)
    else
      match parseSepItems pItem (c2 :: rest2).length (c2 :: rest2) with
      | none => none
      | some (l, r) =>
        match r with
        | [] => none
        | c3 :: r3 => if c3 = closeC then some (l, r3) else none

theorem parseBracketedTail_cons {α : Type} (pItem : List Char → Option (α × List Char))
    (closeC c2 : Char) (rest2 : List Char) :
    parseBracketedTail pItem closeC (c2 :: rest2) =
      if c2 = closeC then some ([], rest2)
      else
        match parseSepItems pItem (c2 :: rest2).length (c2 :: rest2) with
        | none => none
        | some (l, r) =>
          match r with
          | [] => none
          | c3 :: r3 => if c3 = closeC then some (l, r3) else none := rfl

/-- Parse a bracketed, comma-separated JSON sequence (array or object). -/
def parseBracketed {α : Type} (pItem : List Char → Option (α × List Char))
    (openC closeC : Char) : List Char → Option (List α × List Char)
  | [] => none
  | c :: rest => if c = openC then parseBracketedTail pItem closeC rest else none

theorem parseBracketed_cons {α : Type} (pItem : List Char → Option (α × List Char))
    (openC closeC c : Char) (rest : List Char) :
    parseBracketed pItem openC closeC (c :: rest) =
      if c = openC then parseBracketedTail pItem closeC rest else none := rfl

theorem joinComma_length {α : Type} (enc : α → List Char)
    (henc : ∀ a, 1 ≤ (enc a).length) (l : List α) :
    l.length ≤ (joinComma enc l).length := by
  induction l with
  | nil => simp [joinComma_nil]
  | cons a t ih =>
    cases t with
    | nil => simpa [joinComma_single] using henc a
    | cons b t2 =>
      rw [joinComma_cons2]
      simp only [List.length_append, List.length_cons]
      have h1 := henc a
      simp only [List.length_cons] at ih
      omega

theorem parseSepItems_rt {α : Type} (pItem : List Char → Option (α × List Char))
    (enc : α → List Char) (closeC : Char) (hclose : closeC ≠ ',')
    (hItem : ∀ (a : α) (c : Char) (r : List Char), c = ',' ∨ c = closeC →
      pItem (enc a ++ c :: r) = some (a, c :: r)) :
    ∀ (l : List α) (_ : l ≠ []) (rest : List Char) (fuel : Nat), l.length ≤ fuel →
      parseSepItems pItem fuel (joinComma enc l ++ closeC :: rest) = some (l, closeC :: rest) := by
  intro l
  induction l with
  | nil => intro h; exact absurd rfl h
  | cons a t ih =>
    intro _ rest fuel hfuel
    cases fuel with
    | zero => simp at hfuel
    | succ fuel =>
      cases t with
      | nil =>
        rw [joinComma_single, parseSepItems]
        rw [hItem a closeC rest (Or.inr rfl)]
        simp [hclose]
      | cons b t2 =>
        rw [joinComma_cons2]
        simp only [List.append_assoc, List.cons_append]
        rw [parseSepItems]
        rw [hItem a ',' (joinComma enc (b :: t2) ++ closeC :: rest) (Or.inl rfl)]
        have hrec := ih (List.cons_ne_nil b t2) rest fuel
          (by simp only [List.length_cons] at hfuel ⊢; omega)
        simp [hrec]

theorem parseBracketed_rt {α : Type} (pItem : List Char → Option (α × List Char))
    (enc : α → List Char) (openC closeC : Char)
    (hclose : closeC ≠ ',')
    (henc : ∀ a, ∃ c cs', enc a = c :: cs' ∧ c ≠ closeC)
    (hItem : ∀ (a : α) (c : Char) (r : List Char), c = ',' ∨ c = closeC →
      pItem (enc a ++ c :: r) = some (a, c :: r))
    (l : List α) (rest : List Char) :
    parseBracketed pItem openC closeC (encBracketed enc openC closeC l ++ rest) =
      some (l, rest) := by
  simp only [encBracketed, List.cons_append, List.append_assoc, List.singleton_append,
    List.nil_append]
  rw [parseBracketed_cons, if_pos rfl]
  cases l with
  | nil =>
    rw [joinComma_nil, List.nil_append, parseBracketedTail_cons, if_pos rfl]
  | cons a t =>
    obtain ⟨c0, cs0, hc0, hc0ne⟩ := henc a
    have hform : ∃ z, joinComma enc (a :: t) ++ closeC :: rest = c0 :: z ∧
        (a :: t).length ≤ (c0 :: z).length := by
      cases t with
      | nil =>
        rw [joinComma_single, hc0]
        refine ⟨cs0 ++ closeC :: rest, by simp, ?_⟩
        simp
      | cons b t2 =>
        rw [joinComma_cons2, hc0]
        refine ⟨cs0 ++ ',' :: (joinComma enc (b :: t2) ++ closeC :: rest), by simp, ?_⟩
        have h1 : (b :: t2).length ≤ (joinComma enc (b :: t2)).length := by
          apply joinComma_length
          intro x
          obtain ⟨cx, csx, hcx, _⟩ := henc x
          simp [hcx]
        simp only [List.length_cons, List.length_append] at h1 ⊢
        omega
    obtain ⟨z, hz, hlen⟩ := hform
    rw [hz, parseBracketedTail_cons, if_neg hc0ne, ← hz]
    rw [parseSepItems_rt pItem enc closeC hclose hItem (a :: t) (List.cons_ne_nil a t) rest _
      (by rw [hz]; simpa using hlen)]
    simp [hclose]

/-! ## Typed JSON codecs for the persisted fields -/

/-- JSON boolean literal encoding. -/
def encBoolC (b : Bool) : List Char := if b then ['t','r','u','e'] else ['f','a','l','s','e']

/-- Parse a JSON boolean literal. -/
def parseBoolLit : List Char → Option (Bool × List Char)
  | 't' :: 'r' :: 'u' :: 'e' :: rest => some (true, rest)
  | 'f' :: 'a' :: 'l' :: 's' :: 'e' :: rest => some (false, rest)
  | _ => none

theorem parseBoolLit_rt (b : Bool) (rest : List Char) :
    parseBoolLit (encBoolC b ++ rest) = some (b, rest) := by
  cases b <;> rfl

/-- One member's activity record (interface `MemberAction`, src lines 3-7).
The `action` field holds one of the strings `idle`, `solve`, `code`; the
`problem` field is optional and `none` models the absent JS property.  The
declared `startTime` field is never assigned anywhere in the source and is
omitted. -/
structure MemberAction where
  action : String
  problem : Option String
deriving DecidableEq, Repr

/-- JSON encoding of a `MemberAction` object, exactly as `JSON.stringify`
serialises the records the program builds (`action` first, then `problem`
when present). -/
def encMAc (a : MemberAction) : List Char :=
  lbraceC :: (encStrC "action" ++ ':' :: encStrC a.action) ++
    (match a.problem with
     | none => []
     | some p => ',' :: (encStrC "problem" ++ ':' :: encStrC p)) ++ [rbraceC]

/-- Parse a `MemberAction` object in the exact shape the program writes. -/
def parseMA (cs : List Char) : Option (MemberAction × List Char) :=
  match cs with
  | [] => none
  | c :: rest =>
    if c = lbraceC then
      match parseStr rest with
      | none => none
      | some (k1, r1) =>
        if k1 = "action" then
          match r1 with
          | [] => none
          | c2 :: r2 =>
            if c2 = ':' then
              match parseStr r2 with
              | none => none
              | some (v1, r3) =>
                match r3 with
                | [] => none
                | c3 :: r4 =>
                  if c3 = rbraceC then some (⟨v1, none⟩, r4)
                  else if c3 = ',' then
                    match parseStr r4 with
                    | none => none
                    | some (k2, r5) =>
                      if k2 = "problem" then
                        match r5 with
                        | [] => none
                        | c4 :: r6 =>
                          if c4 = ':' then
                            match parseStr r6 with
                            | none => none
                            | some (v2, r7) =>
                              match r7 with
                              | [] => none
                              | c5 :: r8 =>
                                if c5 = rbraceC then some (⟨v1, some v2⟩, r8) else none
                          else none
                      else none
                  else none
            else none
        else none
    else none

theorem comma_ne_rbrace : (',' : Char) ≠ rbraceC := by decide

theorem parseMA_rt (a : MemberAction) (rest : List Char) :
    parseMA (encMAc a ++ rest) = some (a, rest) := by
  obtain ⟨act, prob⟩ := a
  cases prob with
  | none =>
    simp only [encMAc, List.cons_append, List.append_assoc, List.nil_append,
      List.singleton_append]
    rw [parseMA.eq_def]
    simp [parseStr_rt]
  | some p =>
    simp only [encMAc, List.cons_append, List.append_assoc, List.nil_append,
      List.singleton_append]
    rw [parseMA.eq_def]
    simp [parseStr_rt, comma_ne_rbrace]

/-- JSON encoding of one `"key":value` object entry. -/
def encEntryC {α : Type} (encV : α → List Char) (e : String × α) : List Char :=
  encStrC e.1 ++ ':' :: encV e.2

/-- Parse one `"key":value` object entry. -/
def parseEntry {α : Type} (pV : List Char → Option (α × List Char)) (cs : List Char) :
    Option ((String × α) × List Char) :=
  match parseStr cs with
  | none => none
  | some (k, r1) =>
    match r1 with
    | [] => none
    | c :: r2 => if c = ':' then (pV r2).map (fun p => ((k, p.1), p.2)) else none

theorem parseEntry_rt {α : Type} (pV : List Char → Option (α × List Char))
    (encV : α → List Char)
    (hV : ∀ (v : α) (c : Char) (r : List Char), c = ',' ∨ c = rbraceC →
      pV (encV v ++ c :: r) = some (v, c :: r))
    (e : String × α) (c : Char) (r : List Char) (hc : c = ',' ∨ c = rbraceC) :
    parseEntry pV (encEntryC encV e ++ c :: r) = some (e, c :: r) := by
  obtain ⟨k, v⟩ := e
  simp only [encEntryC, List.append_assoc, List.cons_append]
  rw [parseEntry]
  rw [parseStr_rt]
  simp [hV v c r hc]

/-- JSON object encoding `{"k":v,...}` for a dictionary. -/
def encObjC {α : Type} (encV : α → List Char) (l : List (String × α)) : List Char :=
  encBracketed (encEntryC encV) lbraceC rbraceC l

/-- Top-level `JSON.parse` of an object string: the whole string must be
consumed (`JSON.parse` throws on trailing garbage; modelled as `none`). -/
def parseObjTop {α : Type} (pV : List Char → Option (α × List Char)) (s : String) :
    Option (List (String × α)) :=
  match parseBracketed (parseEntry pV) lbraceC rbraceC s.data with
  | some (l, []) => some l
  | _ => none

theorem rbrace_ne_comma : rbraceC ≠ ',' := by decide

theorem parseObjTop_rt {α : Type} (pV : List Char → Option (α × List Char))
    (encV : α → List Char)
    (hV : ∀ (v : α) (c : Char) (r : List Char), c = ',' ∨ c = rbraceC →
      pV (encV v ++ c :: r) = some (v, c :: r))
    (l : List (String × α)) :
    parseObjTop pV (String.mk (encObjC encV l)) = some l := by
  rw [parseObjTop]
  rw [show (String.mk (encObjC encV l)).data = encObjC encV l from rfl]
  rw [show encObjC encV l = encObjC encV l ++ [] by simp]
  rw [encObjC]
  rw [parseBracketed_rt (parseEntry pV) (encEntryC encV) lbraceC rbraceC rbrace_ne_comma
    ?_ ?_ l []]
  · intro e
    obtain ⟨k, v⟩ := e
    refine ⟨quoteC, k.data.flatMap escChar ++ [quoteC] ++ ':' :: encV v, ?_, by decide⟩
    simp [encEntryC, encStrC]
  · intro e c r hc
    exact parseEntry_rt pV encV hV e c r hc

/-- JSON array encoding `["s",...]` for the log. -/
def encArrC (l : List String) : List Char :=
  encBracketed encStrC lbrackC rbrackC l

/-- Top-level `JSON.parse` of an array-of-strings string. -/
def parseArrTop (s : String) : Option (List String) :=
  match parseBracketed parseStr lbrackC rbrackC s.data with
  | some (l, []) => some l
  | _ => none

theorem rbrack_ne_comma : rbrackC ≠ ',' := by decide

theorem parseArrTop_rt (l : List String) :
    parseArrTop (String.mk (encArrC l)) = some l := by
  rw [parseArrTop]
  rw [show (String.mk (encArrC l)).data = encArrC l from rfl]
  rw [show encArrC l = encArrC l ++ [] by simp]
  rw [encArrC]
  rw [parseBracketed_rt parseStr encStrC lbrackC rbrackC rbrack_ne_comma
    ?_ ?_ l []]
  · intro s
    exact ⟨quoteC, s.data.flatMap escChar ++ [quoteC], by simp [encStrC], by decide⟩
  · intro s c r _
    exact parseStr_rt s (c :: r)

theorem parseNatLit_sep (v : Nat) (c : Char) (r : List Char) (hc : c = ',' ∨ c = rbraceC) :
    parseNatLit (natReprC v ++ c :: r) = some (v, c :: r) := by
  apply parseNatLit_append
  rcases hc with hc | hc
  · subst hc
    simp only [headNonDigit]
    decide
  · subst hc
    simp only [headNonDigit]
    decide

/-! ## Application data model (src/App.tsx) -/

/-- Fixed roster (src line 17). -/
def TEAM_MEMBERS : List String := ["TG", "BJ", "SR"]

/-- Composite ledger key `` `${member}-${target}` `` (src lines 138, 144,
167, 173). -/
def memberKey (m t : String) : String := m ++ "-" ++ t

/-- Value of the `numProblems` state (src line 33): either the empty string
`''` or a JS number, which the program can only make an integer or `NaN`
(from `parseInt` of a tampered store). -/
inductive NumVal where
  | empty
  | num (n : Int)
  | nan
deriving DecidableEq, Repr

/-- JS `numProblems !== ''` (also `typeof numProblems === 'number'`, since
the state is either `''` or a number). -/
def numNotEmpty : NumVal → Bool
  | .empty => false
  | _ => true

/-- JS `numProblems > 0` (false for `NaN`). -/
def numGtZero : NumVal → Bool
  | .num n => decide (0 < n)
  | _ => false

/-- Length `Array.from({ length: numProblems })` iterates: clamped to 0 for
negative numbers and `NaN`, as in JS. -/
def numLength : NumVal → Nat
  | .num n => n.toNat
  | _ => 0

/-- JS `String(numProblems)` for the persisted value (src line 73). -/
def numStr : NumVal → String
  | .num n => String.mk (intReprC n)
  | .nan => "NaN"
  | .empty => ""

/-- JS `String(b)` for booleans (src lines 78, 86). -/
def boolStr (b : Bool) : String := if b then "true" else "false"

/-- The whole component state: the eight `useState` pieces of src lines
33-68 (the two dialog flags are pure view state and out of scope). -/
structure AppState where
  numProblems : NumVal
  isNumProblemsLocked : Bool
  time : Nat
  isRunning : Bool
  teamActions : List (String × MemberAction)
  problemStates : List (String × Bool)
  logs : List String
  actionTimers : List (String × Nat)
deriving DecidableEq, Repr

/-- Default `teamActions` (src lines 49-53 and 256-260). -/
def defaultTeamActions : List (String × MemberAction) :=
  [("TG", ⟨"idle", none⟩), ("BJ", ⟨"idle", none⟩), ("SR", ⟨"idle", none⟩)]

/-- The unconfigured state: all `useState` defaults (also the post-reset
state, src lines 252-264). -/
def freshState : AppState :=
  ⟨.empty, false, 0, false, defaultTeamActions, [], [], []⟩

/-- `padStart(2, '0')` on a digit string. -/
def padTwoC (cs : List Char) : List Char := List.replicate (2 - cs.length) '0' ++ cs

/-- `formatTime` (src lines 19-24). -/
def formatTime (seconds : Nat) : String :=
  String.mk (padTwoC (natReprC (seconds / 3600)) ++
    ':' :: padTwoC (natReprC (seconds % 3600 / 60)) ++
    ':' :: padTwoC (natReprC (seconds % 60)))

/-- `addLog` (src lines 190-192): appends the message stamped with the
current elapsed time. -/
def addLog (s : AppState) (message : String) : AppState :=
  { s with logs := s.logs ++ [formatTime s.time ++ " " ++ message] }

/-! ## Operations -/

/-- `handleNumProblemsSubmit` (src lines 194-198). -/
def handleNumProblemsSubmit (s : AppState) : AppState :=
  if numNotEmpty s.numProblems && numGtZero s.numProblems then
    { s with isNumProblemsLocked := true }
  else s

/-- Problem name from its ordinal: `String.fromCharCode(65 + i)` (src lines
126, 143). -/
def problemName (i : Nat) : String := String.mk [Char.ofNat (65 + i)]

/-- The problem identifiers `A`, `B`, ... created at lock time. -/
def problemNames (n : Nat) : List String := (List.range n).map problemName

/-- Rebuild of `problemStates` by the lock-initialization effect (src lines
123-131): a fresh object keyed by the current problem list, preserving a
previous `true` via `prev[problem] || false`. -/
def rebuildPS (n : Nat) (prev : List (String × Bool)) : List (String × Bool) :=
  (problemNames n).foldl (fun acc p => jsSet acc p ((jsGet prev p).getD false)) []

/-- One `if (!(key in newTimers)) newTimers[key] = 0` step (src lines
137-147). -/
def addIfMissing (timers : List (String × Nat)) (k : String) : List (String × Nat) :=
  if (jsGet timers k).isSome then timers else jsSet timers k 0

/-- The ledger keys the lock-initialization effect creates, in the order of
its nested loops (for each member: the idle key, then one key per
problem; src lines 136-148). -/
def timerKeys (n : Nat) : List String :=
  TEAM_MEMBERS.flatMap (fun m => memberKey m "idle" :: (problemNames n).map (memberKey m))

/-- Timer initialization of the lock effect (src lines 134-151). -/
def initTimers (n : Nat) (timers : List (String × Nat)) : List (String × Nat) :=
  (timerKeys n).foldl addIfMissing timers

/-- The lock-initialization effect (src lines 120-153), which fires when
`isNumProblemsLocked && typeof numProblems === 'number'`. -/
def lockInitEffect (s : AppState) : AppState :=
  if s.isNumProblemsLocked && numNotEmpty s.numProblems then
    { s with problemStates := rebuildPS (numLength s.numProblems) s.problemStates,
             actionTimers := initTimers (numLength s.numProblems) s.actionTimers }
  else s

/-- The lock operation as the UI drives it: type `n` into the number input
(`setNumProblems`), press Confirm (`handleNumProblemsSubmit`), after which
the lock-initialization effect runs on the new state. -/
def lockProblemCount (n : Int) (s : AppState) : AppState :=
  lockInitEffect (handleNumProblemsSubmit { s with numProblems := NumVal.num n })

/-- JS truthiness of the optional `problem` argument (`undefined` and `''`
are falsy). -/
def optTruthy : Option String → Bool
  | none => false
  | some p => p ≠ ""

/-- Rendering of the optional `problem` in a template literal
(`undefined` prints as the string `undefined`). -/
def showOpt : Option String → String
  | none => "undefined"
  | some p => p

/-- `handleActionChange` (src lines 200-218): silently ignored unless
running; stores `{ action, ...(problem ? { problem } : {}) }` and appends
one log line per action kind. -/
def handleActionChange (s : AppState) (member action : String) (problem : Option String) :
    AppState :=
  if !s.isRunning then s
  else
    let stored : MemberAction := ⟨action, if optTruthy problem then problem else none⟩
    let s1 := { s with teamActions := jsSet s.teamActions member stored }
    if action = "idle" then addLog s1 (member ++ " is now idle.")
    else if action = "solve" then
      addLog s1 (member ++ " starts working on Problem " ++ showOpt problem ++ ".")
    else if action = "code" then
      addLog s1 (member ++ " begins coding for Problem " ++ showOpt problem ++ ".")
    else s1

/-- One step of the forced-idle cascade of `handleProblemSolved` (the
`TEAM_MEMBERS.forEach` body, src lines 229-234): the membership test reads
the `prev` snapshot, as the source's updater does.  (A roster member
missing from `teamActions` would make the source throw on
`prev[member].problem`; that state is unreachable and modelled as a skip.) -/
def cascadeStep (prev : List (String × MemberAction)) (problem : String)
    (acc : AppState) (m : String) : AppState :=
  match jsGet prev m with
  | none => acc
  | some a =>
    if a.problem = some problem then
      addLog { acc with teamActions := jsSet acc.teamActions m ⟨"idle", none⟩ }
        (m ++ " is idle")
    else acc

/-- `handleProblemSolved` (src lines 220-237): silently ignored unless
running; sets the status, logs, then runs the forced-idle cascade over the
roster in order. -/
def handleProblemSolved (s : AppState) (problem : String) : AppState :=
  if !s.isRunning then s
  else
    let s1 := addLog { s with problemStates := jsSet s.problemStates problem true }
      ("Problem " ++ problem ++ " is successfully solved.")
    TEAM_MEMBERS.foldl (cascadeStep s.teamActions problem) s1

/-- One member's ledger accrual on a tick (src lines 163-177): the idle key
when idle, else the problem key when `action.problem` is truthy, and only
if that key is already present (`in newTimers`). -/
def accrueMember (ta : List (String × MemberAction)) (timers : List (String × Nat))
    (m : String) : List (String × Nat) :=
  match jsGet ta m with
  | none => timers
  | some a =>
    if a.action = "idle" then
      match jsGet timers (memberKey m "idle") with
      | some v => jsSet timers (memberKey m "idle") (v + 1)
      | none => timers
    else
      match a.problem with
      | none => timers
      | some p =>
        if p = "" then timers
        else
          match jsGet timers (memberKey m p) with
          | some v => jsSet timers (memberKey m p) (v + 1)
          | none => timers

/-- One clock tick while running: the 1 Hz clock interval (src lines
106-118) and the ledger interval (src lines 156-188) fire together. -/
def tick (s : AppState) : AppState :=
  if s.isRunning then
    { s with time := s.time + 1,
             actionTimers := TEAM_MEMBERS.foldl (accrueMember s.teamActions) s.actionTimers }
  else s

/-- `n` consecutive ticks. -/
def tickN : Nat → AppState → AppState
  | 0, s => s
  | n+1, s => tickN n (tick s)

/-- The Start/Pause button (src line 293): `setIsRunning(!isRunning)`. -/
def toggleRunning (s : AppState) : AppState := { s with isRunning := !s.isRunning }

/-! ## Persistence (localStorage, src lines 33-103 and 240-265) -/

/-- The `localStorage` key-value store. -/
abbrev Store := List (String × String)

/-- `JSON.stringify(teamActions)` (src line 90). -/
def encodeTA (ta : List (String × MemberAction)) : String := String.mk (encObjC encMAc ta)

/-- `JSON.stringify(problemStates)` (src line 94). -/
def encodePS (ps : List (String × Bool)) : String := String.mk (encObjC encBoolC ps)

/-- `JSON.stringify(logs)` (src line 98). -/
def encodeLogs (ls : List String) : String := String.mk (encArrC ls)

/-- `JSON.stringify(actionTimers)` (src line 102). -/
def encodeTimers (tm : List (String × Nat)) : String := String.mk (encObjC natReprC tm)

/-- The write-through effects of src lines 70-103 applied to a state: every
field is saved under its key, except that `numProblems` is written only
when it is not `''` (the effect's guard on line 72 — an existing stored
value is left in place in that case). -/
def saveAll (s : AppState) (st : Store) : Store :=
  let st1 := if numNotEmpty s.numProblems then jsSet st "numProblems" (numStr s.numProblems)
             else st
  let st2 := jsSet st1 "isNumProblemsLocked" (boolStr s.isNumProblemsLocked)
  let st3 := jsSet st2 "time" (String.mk (natReprC s.time))
  let st4 := jsSet st3 "isRunning" (boolStr s.isRunning)
  let st5 := jsSet st4 "teamActions" (encodeTA s.teamActions)
  let st6 := jsSet st5 "problemStates" (encodePS s.problemStates)
  let st7 := jsSet st6 "logs" (encodeLogs s.logs)
  jsSet st7 "actionTimers" (encodeTimers s.actionTimers)

/-- The eight `localStorage.removeItem` calls of `handleReset` (src lines
242-249). -/
def removeAll (st : Store) : Store :=
  jsRemove (jsRemove (jsRemove (jsRemove (jsRemove (jsRemove (jsRemove
    (jsRemove st "numProblems") "isNumProblemsLocked") "time") "isRunning")
    "teamActions") "problemStates") "logs") "actionTimers"

/-- Load of `numProblems` (src lines 33-36): absent key gives `''`,
otherwise `parseInt` (NaN when unparseable). -/
def loadNum (st : Store) : NumVal :=
  match jsGet st "numProblems" with
  | none => .empty
  | some str =>
    match parseIntM str with
    | some k => .num k
    | none => .nan

/-- Load of a boolean flag: `localStorage.getItem(key) === 'true'` (src
lines 37-39, 44-46). -/
def loadBool (st : Store) (key : String) : Bool := jsGet st key = some "true"

/-- Load of `time` (src lines 40-43).  A stored value `parseInt` cannot
read as a non-negative integer would make the JS state `NaN` or negative,
which `time : Nat` cannot represent; that case (never produced by the
program's own writes) is modelled as load failure. -/
def loadTime (st : Store) : Option Nat :=
  match jsGet st "time" with
  | none => some 0
  | some str =>
    match parseIntM str with
    | some k => if 0 ≤ k then some k.toNat else none
    | none => none

/-- Load of `teamActions` (src lines 47-54): absent key gives the default
roster; `JSON.parse` throwing on a malformed value is `none`. -/
def loadTA (st : Store) : Option (List (String × MemberAction)) :=
  match jsGet st "teamActions" with
  | none => some defaultTeamActions
  | some str => parseObjTop parseMA str

/-- Load of `problemStates` (src lines 55-58). -/
def loadPS (st : Store) : Option (List (String × Bool)) :=
  match jsGet st "problemStates" with
  | none => some []
  | some str => parseObjTop parseBoolLit str

/-- Load of `logs` (src lines 59-62). -/
def loadLogs (st : Store) : Option (List String) :=
  match jsGet st "logs" with
  | none => some []
  | some str => parseArrTop str

/-- Load of `actionTimers` (src lines 65-68). -/
def loadTimers (st : Store) : Option (List (String × Nat)) :=
  match jsGet st "actionTimers" with
  | none => some []
  | some str => parseObjTop parseNatLit str

/-- The whole load performed by the `useState` initializers at mount (src
lines 33-68); `none` models an initializer throwing inside `JSON.parse`. -/
def loadState (st : Store) : Option AppState :=
  match loadTime st, loadTA st, loadPS st, loadLogs st, loadTimers st with
  | some t, some ta, some ps, some lg, some tm =>
    some ⟨loadNum st, loadBool st "isNumProblemsLocked", t, loadBool st "isRunning",
      ta, ps, lg, tm⟩
  | _, _, _, _, _ => none

/-! ## Ledger key and accrual lemmas -/

theorem isSome_of_mem_keyList {α : Type} (l : List (String × α)) (q : String)
    (h : q ∈ keyList l) : (jsGet l q).isSome = true := by
  induction l with
  | nil => simp [keyList] at h
  | cons hd tl ih =>
    obtain ⟨k₀, v₀⟩ := hd
    by_cases h0 : k₀ = q
    · subst h0; simp [jsGet]
    · have h' : q ∈ keyList tl := by
        simp only [keyList, List.map_cons, List.mem_cons] at h
        rcases h with h | h
        · exact absurd h.symm h0
        · exact h
      simpa [jsGet, h0] using ih h'

theorem isSome_iff_mem_keyList {α : Type} (l : List (String × α)) (q : String) :
    (jsGet l q).isSome = true ↔ q ∈ keyList l :=
  ⟨mem_keyList_of_jsGet_isSome l q, isSome_of_mem_keyList l q⟩

theorem memberKey_inj_of_length {m m' t t' : String} (hlen : m.length = m'.length)
    (h : memberKey m t = memberKey m' t') : m = m' ∧ t = t' := by
  have hd : (m ++ "-" ++ t).data = (m' ++ "-" ++ t').data := congrArg String.data h
  obtain ⟨md⟩ := m
  obtain ⟨md'⟩ := m'
  obtain ⟨td⟩ := t
  obtain ⟨td'⟩ := t'
  simp only [String.data_append] at hd
  have hmd : md ++ '-' :: td = md' ++ '-' :: td' := by simpa using hd
  have hlen' : md.length = md'.length := by simpa [String.length] using hlen
  obtain ⟨h1, h2⟩ := List.append_inj hmd hlen'
  refine ⟨congrArg String.mk h1, ?_⟩
  have h3 : td = td' := by simpa using h2
  exact congrArg String.mk h3

theorem roster_length_two (m : String) (hm : m ∈ TEAM_MEMBERS) : m.length = 2 := by
  simp [TEAM_MEMBERS] at hm
  rcases hm with h | h | h <;> subst h <;> rfl

theorem memberKey_ne_cross {m m' : String} (hm : m ∈ TEAM_MEMBERS) (hm' : m' ∈ TEAM_MEMBERS)
    (hne : m ≠ m') (t t' : String) : memberKey m t ≠ memberKey m' t' := by
  intro h
  have hlen : m.length = m'.length := by
    rw [roster_length_two m hm, roster_length_two m' hm']
  exact hne (memberKey_inj_of_length hlen h).1

theorem memberKey_inj_right {m t t' : String} (h : memberKey m t = memberKey m t') : t = t' :=
  (memberKey_inj_of_length rfl h).2

/-- The ledger key a member's current activity accrues to on a tick (`none`
when the activity is solve/code with no truthy problem, in which case no
entry of that member is touched). -/
def targetKey (m : String) (a : MemberAction) : Option String :=
  if a.action = "idle" then some (memberKey m "idle")
  else
    match a.problem with
    | none => none
    | some p => if p = "" then none else some (memberKey m p)

theorem targetKey_shape (m : String) (a : MemberAction) (k : String)
    (h : targetKey m a = some k) : ∃ t, k = memberKey m t := by
  unfold targetKey at h
  split at h
  · exact ⟨"idle", by simpa using h.symm⟩
  · cases hp : a.problem with
    | none => rw [hp] at h; simp at h
    | some p =>
      rw [hp] at h
      by_cases hpe : p = ""
      · simp [hpe] at h
      · simp [hpe] at h
        exact ⟨p, h.symm⟩

theorem accrue_get (ta : List (String × MemberAction)) (t : List (String × Nat))
    (m k' : String) :
    jsGet (accrueMember ta t m) k' =
      match jsGet ta m with
      | none => jsGet t k'
      | some a =>
        match targetKey m a with
        | none => jsGet t k'
        | some k =>
          match jsGet t k with
          | none => jsGet t k'
          | some v => if k' = k then some (v + 1) else jsGet t k' := by
  unfold accrueMember
  cases hma : jsGet ta m with
  | none => simp
  | some a =>
    by_cases hidle : a.action = "idle"
    · have htk : targetKey m a = some (memberKey m "idle") := by simp [targetKey, hidle]
      cases hv : jsGet t (memberKey m "idle") with
      | none => simp [hidle, htk, hv]
      | some v => simp [hidle, htk, hv, jsGet_jsSet]
    · cases hp : a.problem with
      | none =>
        have htk : targetKey m a = none := by simp [targetKey, hidle, hp]
        simp [hidle, hp, htk]
      | some p =>
        by_cases hpe : p = ""
        · have htk : targetKey m a = none := by simp [targetKey, hidle, hp, hpe]
          simp [hidle, hp, hpe, htk]
        · have htk : targetKey m a = some (memberKey m p) := by
            simp [targetKey, hidle, hp, hpe]
          cases hv : jsGet t (memberKey m p) with
          | none => simp [hidle, hp, hpe, htk, hv]
          | some v => simp [hidle, hp, hpe, htk, hv, jsGet_jsSet]

theorem accrue_frame (ta : List (String × MemberAction)) (t : List (String × Nat))
    (m k' : String) (h : ∀ a, jsGet ta m = some a → targetKey m a ≠ some k') :
    jsGet (accrueMember ta t m) k' = jsGet t k' := by
  rw [accrue_get]
  cases hma : jsGet ta m with
  | none => simp
  | some a =>
    cases htk : targetKey m a with
    | none => simp [htk]
    | some k =>
      cases hv : jsGet t k with
      | none => simp [htk, hv]
      | some v =>
        have hkk : k' ≠ k := by
          intro hkk
          exact h a hma (by rw [htk, hkk])
        simp [htk, hv, hkk]

theorem accrue_isSome (ta : List (String × MemberAction)) (t : List (String × Nat))
    (m k' : String) :
    (jsGet (accrueMember ta t m) k').isSome = (jsGet t k').isSome := by
  rw [accrue_get]
  cases hma : jsGet ta m with
  | none => simp
  | some a =>
    cases htk : targetKey m a with
    | none => simp [htk]
    | some k =>
      cases hv : jsGet t k with
      | none => simp [htk, hv]
      | some v =>
        by_cases hkk : k' = k
        · subst hkk
          simp [htk, hv]
        · simp [htk, hv, hkk]

theorem accrue_hit (ta : List (String × MemberAction)) (t : List (String × Nat))
    (m : String) (a : MemberAction) (ha : jsGet ta m = some a) (k : String)
    (hk : targetKey m a = some k) (v : Nat) (hv : jsGet t k = some v) :
    jsGet (accrueMember ta t m) k = some (v + 1) := by
  rw [accrue_get]
  simp [ha, hk, hv]

theorem tick_fields (s : AppState) :
    (tick s).teamActions = s.teamActions ∧ (tick s).isRunning = s.isRunning ∧
    (tick s).numProblems = s.numProblems ∧
    (tick s).isNumProblemsLocked = s.isNumProblemsLocked ∧
    (tick s).problemStates = s.problemStates ∧ (tick s).logs = s.logs := by
  unfold tick
  split <;> simp

theorem tick_timers_run (s : AppState) (hrun : s.isRunning = true) :
    (tick s).actionTimers =
      accrueMember s.teamActions
        (accrueMember s.teamActions
          (accrueMember s.teamActions s.actionTimers "TG") "BJ") "SR" := by
  simp [tick, hrun, TEAM_MEMBERS]

theorem tick_timers_isSome (s : AppState) (k : String) :
    (jsGet (tick s).actionTimers k).isSome = (jsGet s.actionTimers k).isSome := by
  by_cases hrun : s.isRunning
  · rw [tick_timers_run s hrun, accrue_isSome, accrue_isSome, accrue_isSome]
  · simp [tick, hrun]

theorem tick_get_frame (s : AppState) (k' : String)
    (h : ∀ m, m ∈ TEAM_MEMBERS → ∀ a, jsGet s.teamActions m = some a →
      targetKey m a ≠ some k') :
    jsGet (tick s).actionTimers k' = jsGet s.actionTimers k' := by
  by_cases hrun : s.isRunning
  · rw [tick_timers_run s hrun]
    rw [accrue_frame _ _ _ _ (h "SR" (by simp [TEAM_MEMBERS]))]
    rw [accrue_frame _ _ _ _ (h "BJ" (by simp [TEAM_MEMBERS]))]
    rw [accrue_frame _ _ _ _ (h "TG" (by simp [TEAM_MEMBERS]))]
  · simp [tick, hrun]

theorem accrue_frame_member (ta : List (String × MemberAction)) (t : List (String × Nat))
    (m'' m : String) (hm'' : m'' ∈ TEAM_MEMBERS) (hm : m ∈ TEAM_MEMBERS) (hne : m'' ≠ m)
    (x : String) :
    jsGet (accrueMember ta t m'') (memberKey m x) = jsGet t (memberKey m x) := by
  apply accrue_frame
  intro a' _ hcontra
  obtain ⟨y, hy⟩ := targetKey_shape m'' a' _ hcontra
  exact memberKey_ne_cross hm'' hm hne y x hy.symm

/-! ## Frame lemmas for the operations -/

theorem tickN_zero (s : AppState) : tickN 0 s = s := rfl

theorem tickN_succ (n : Nat) (s : AppState) : tickN (n + 1) s = tickN n (tick s) := rfl

theorem tickN_fields (N : Nat) (s : AppState) :
    (tickN N s).teamActions = s.teamActions ∧ (tickN N s).isRunning = s.isRunning := by
  induction N generalizing s with
  | zero => exact ⟨rfl, rfl⟩
  | succ n ih =>
    rw [tickN_succ]
    obtain ⟨h1, h2⟩ := ih (tick s)
    obtain ⟨g1, g2, _⟩ := tick_fields s
    exact ⟨h1.trans g1, h2.trans g2⟩

theorem handleActionChange_frame (s : AppState) (m a : String) (p : Option String) :
    (handleActionChange s m a p).numProblems = s.numProblems ∧
    (handleActionChange s m a p).isNumProblemsLocked = s.isNumProblemsLocked ∧
    (handleActionChange s m a p).time = s.time ∧
    (handleActionChange s m a p).isRunning = s.isRunning ∧
    (handleActionChange s m a p).problemStates = s.problemStates ∧
    (handleActionChange s m a p).actionTimers = s.actionTimers := by
  unfold handleActionChange
  repeat' split
  all_goals simp [addLog]

/-- The membership test of the cascade (`prev[member].problem === problem`). -/
def referencesProblem (prev : List (String × MemberAction)) (problem m : String) : Bool :=
  match jsGet prev m with
  | some a => a.problem = some problem
  | none => false

theorem cascade_fold (prev : List (String × MemberAction)) (p : String) (ms : List String)
    (acc : AppState) :
    (ms.foldl (cascadeStep prev p) acc).numProblems = acc.numProblems ∧
    (ms.foldl (cascadeStep prev p) acc).isNumProblemsLocked = acc.isNumProblemsLocked ∧
    (ms.foldl (cascadeStep prev p) acc).time = acc.time ∧
    (ms.foldl (cascadeStep prev p) acc).isRunning = acc.isRunning ∧
    (ms.foldl (cascadeStep prev p) acc).problemStates = acc.problemStates ∧
    (ms.foldl (cascadeStep prev p) acc).actionTimers = acc.actionTimers ∧
    (ms.foldl (cascadeStep prev p) acc).logs = acc.logs ++
      (ms.filter (referencesProblem prev p)).map
        (fun m => formatTime acc.time ++ " " ++ (m ++ " is idle")) := by
  induction ms generalizing acc with
  | nil => simp
  | cons m ms' ih =>
    rw [List.foldl_cons]
    obtain ⟨i1, i2, i3, i4, i5, i6, i7⟩ := ih (cascadeStep prev p acc m)
    have hstep : (cascadeStep prev p acc m).numProblems = acc.numProblems ∧
        (cascadeStep prev p acc m).isNumProblemsLocked = acc.isNumProblemsLocked ∧
        (cascadeStep prev p acc m).time = acc.time ∧
        (cascadeStep prev p acc m).isRunning = acc.isRunning ∧
        (cascadeStep prev p acc m).problemStates = acc.problemStates ∧
        (cascadeStep prev p acc m).actionTimers = acc.actionTimers ∧
        (cascadeStep prev p acc m).logs = acc.logs ++
          (if referencesProblem prev p m then
            [formatTime acc.time ++ " " ++ (m ++ " is idle")] else []) := by
      unfold cascadeStep referencesProblem
      cases hma : jsGet prev m with
      | none => simp
      | some a =>
        by_cases hap : a.problem = some p
        · simp [hap, addLog]
        · simp [hap]
    obtain ⟨s1, s2, s3, s4, s5, s6, s7⟩ := hstep
    refine ⟨i1.trans s1, i2.trans s2, i3.trans s3, i4.trans s4, i5.trans s5, i6.trans s6, ?_⟩
    rw [i7, s7, s3]
    by_cases href : referencesProblem prev p m
    · simp [href, List.filter_cons]
    · simp [href, List.filter_cons]

theorem handleProblemSolved_not_run (s : AppState) (p : String)
    (hrun : s.isRunning = false) : handleProblemSolved s p = s := by
  simp [handleProblemSolved, hrun]

theorem handleProblemSolved_run (s : AppState) (p : String) (hrun : s.isRunning = true) :
    (handleProblemSolved s p).problemStates = jsSet s.problemStates p true ∧
    (handleProblemSolved s p).logs = s.logs ++
      (formatTime s.time ++ " " ++ ("Problem " ++ p ++ " is successfully solved.")) ::
      (TEAM_MEMBERS.filter (referencesProblem s.teamActions p)).map
        (fun m => formatTime s.time ++ " " ++ (m ++ " is idle")) ∧
    (handleProblemSolved s p).numProblems = s.numProblems ∧
    (handleProblemSolved s p).isNumProblemsLocked = s.isNumProblemsLocked ∧
    (handleProblemSolved s p).time = s.time ∧
    (handleProblemSolved s p).isRunning = s.isRunning ∧
    (handleProblemSolved s p).actionTimers = s.actionTimers := by
  have hs1 : handleProblemSolved s p =
      TEAM_MEMBERS.foldl (cascadeStep s.teamActions p)
        (addLog { s with problemStates := jsSet s.problemStates p true }
          ("Problem " ++ p ++ " is successfully solved.")) := by
    simp [handleProblemSolved, hrun]
  obtain ⟨c1, c2, c3, c4, c5, c6, c7⟩ := cascade_fold s.teamActions p TEAM_MEMBERS
    (addLog { s with problemStates := jsSet s.problemStates p true }
      ("Problem " ++ p ++ " is successfully solved."))
  rw [hs1]
  refine ⟨by simpa [addLog] using c5, ?_, by simpa [addLog] using c1,
    by simpa [addLog] using c2, by simpa [addLog] using c3,
    by simpa [addLog] using c4.trans (by simp [addLog, hrun]), by simpa [addLog] using c6⟩
  rw [c7]
  simp [addLog]

/-! ## Lock-initialization lemmas -/

theorem foldSet_get {α : Type} (ks : List String) (v : String → α)
    (acc : List (String × α)) (q : String) :
    jsGet (ks.foldl (fun a k => jsSet a k (v k)) acc) q =
      if q ∈ ks then some (v q) else jsGet acc q := by
  induction ks generalizing acc with
  | nil => simp
  | cons k0 ks' ih =>
    rw [List.foldl_cons, ih]
    by_cases hq : q ∈ ks'
    · simp [hq]
    · by_cases hq0 : q = k0
      · subst hq0
        simp [hq, jsGet_jsSet_self]
      · simp [hq, hq0, jsGet_jsSet_ne _ _ _ _ hq0]

theorem foldSet_congr {α : Type} (ks : List String) (v v' : String → α)
    (h : ∀ k ∈ ks, v k = v' k) (acc : List (String × α)) :
    ks.foldl (fun a k => jsSet a k (v k)) acc = ks.foldl (fun a k => jsSet a k (v' k)) acc := by
  induction ks generalizing acc with
  | nil => rfl
  | cons k0 ks' ih =>
    rw [List.foldl_cons, List.foldl_cons, h k0 (by simp)]
    exact ih (fun k hk => h k (by simp [hk])) _

theorem nodup_jsSet {α : Type} (l : List (String × α)) (k : String) (v : α)
    (h : (keyList l).Nodup) : (keyList (jsSet l k v)).Nodup := by
  rw [keyList_jsSet]
  by_cases hk : (jsGet l k).isSome
  · simpa [hk] using h
  · have hmem : k ∉ keyList l := by
      intro hmem
      exact hk (by rw [isSome_of_mem_keyList l k hmem])
    simp [hk, List.nodup_append, h, hmem]

theorem keyList_jsRemove_sub {α : Type} (l : List (String × α)) (k : String) :
    keyList (jsRemove l k) ⊆ keyList l := by
  induction l with
  | nil => simp [jsRemove]
  | cons hd tl ih =>
    obtain ⟨k₀, v₀⟩ := hd
    by_cases h0 : k₀ = k
    · subst h0
      simp only [jsRemove, if_pos rfl]
      intro q hq
      simp only [keyList, List.map_cons, List.mem_cons]
      right
      exact hq
    · simp only [jsRemove, if_neg h0, keyList, List.map_cons]
      intro q hq
      rcases List.mem_cons.mp hq with h | h
      · simp [h]
      · simp only [List.mem_cons]
        right
        exact ih h

theorem nodup_jsRemove {α : Type} (l : List (String × α)) (k : String)
    (h : (keyList l).Nodup) : (keyList (jsRemove l k)).Nodup := by
  induction l with
  | nil => simp [jsRemove, keyList]
  | cons hd tl ih =>
    obtain ⟨k₀, v₀⟩ := hd
    simp only [keyList, List.map_cons, List.nodup_cons] at h
    by_cases h0 : k₀ = k
    · subst h0
      simpa [jsRemove, keyList] using h.2
    · simp only [jsRemove, if_neg h0, keyList, List.map_cons, List.nodup_cons]
      refine ⟨fun hmem => h.1 ?_, ih h.2⟩
      have := keyList_jsRemove_sub tl k hmem
      simpa [keyList] using this

theorem foldSet_nodup {α : Type} (ks : List String) (v : String → α)
    (acc : List (String × α)) (h : (keyList acc).Nodup) :
    (keyList (ks.foldl (fun a k => jsSet a k (v k)) acc)).Nodup := by
  induction ks generalizing acc with
  | nil => exact h
  | cons k0 ks' ih =>
    rw [List.foldl_cons]
    exact ih _ (nodup_jsSet _ _ _ h)

theorem foldSet_keyList {α β : Type} (ks : List String) (v : String → α) (v' : String → β)
    (acc : List (String × α)) (acc' : List (String × β))
    (hacc : keyList acc = keyList acc') :
    keyList (ks.foldl (fun a k => jsSet a k (v k)) acc) =
      keyList (ks.foldl (fun a k => jsSet a k (v' k)) acc') := by
  induction ks generalizing acc acc' with
  | nil => exact hacc
  | cons k0 ks' ih =>
    rw [List.foldl_cons, List.foldl_cons]
    apply ih
    rw [keyList_jsSet, keyList_jsSet]
    by_cases hmem : k0 ∈ keyList acc
    · rw [isSome_of_mem_keyList _ _ hmem, isSome_of_mem_keyList _ _ (hacc ▸ hmem)]
      simpa using hacc
    · have h1 : (jsGet acc k0).isSome = false := by
        cases hg : (jsGet acc k0).isSome
        · rfl
        · exact absurd (mem_keyList_of_jsGet_isSome _ _ (by rw [hg])) hmem
      have h2 : (jsGet acc' k0).isSome = false := by
        cases hg : (jsGet acc' k0).isSome
        · rfl
        · exact absurd (hacc ▸ mem_keyList_of_jsGet_isSome _ _ (by rw [hg])) hmem
      rw [h1, h2]
      simp [hacc]

theorem jsGet_rebuildPS (n : Nat) (prev : List (String × Bool)) (q : String) :
    jsGet (rebuildPS n prev) q =
      if q ∈ problemNames n then some ((jsGet prev q).getD false) else none := by
  unfold rebuildPS
  rw [foldSet_get]
  by_cases hq : q ∈ problemNames n <;> simp [hq, jsGet]

theorem rebuildPS_congr (n : Nat) (X Y : List (String × Bool))
    (h : ∀ q ∈ problemNames n, (jsGet X q).getD false = (jsGet Y q).getD false) :
    rebuildPS n X = rebuildPS n Y := by
  unfold rebuildPS
  exact foldSet_congr _ _ _ h _

theorem rebuildPS_idem (n : Nat) (prev : List (String × Bool)) :
    rebuildPS n (rebuildPS n prev) = rebuildPS n prev := by
  apply rebuildPS_congr
  intro q hq
  rw [jsGet_rebuildPS, if_pos hq]
  rfl

theorem keyList_rebuildPS_eq (n : Nat) (prev prev' : List (String × Bool)) :
    keyList (rebuildPS n prev) = keyList (rebuildPS n prev') := by
  unfold rebuildPS
  exact foldSet_keyList _ _ _ _ _ rfl

theorem nodup_rebuildPS (n : Nat) (prev : List (String × Bool)) :
    (keyList (rebuildPS n prev)).Nodup := by
  unfold rebuildPS
  exact foldSet_nodup _ _ _ (by simp [keyList])

theorem rebuildPS_jsSet (n : Nat) (ps : List (String × Bool)) (p : String)
    (hp : (jsGet ps p).isSome = true) (hfix : rebuildPS n ps = ps) :
    rebuildPS n (jsSet ps p true) = jsSet ps p true := by
  have hpmem : p ∈ problemNames n := by
    by_contra hmem
    have := jsGet_rebuildPS n ps p
    rw [hfix, if_neg hmem] at this
    rw [this] at hp
    simp at hp
  apply assoc_ext
  · rw [show keyList (rebuildPS n (jsSet ps p true)) = keyList (rebuildPS n ps) from
      keyList_rebuildPS_eq n _ _, hfix, keyList_jsSet, hp]
    simp
  · exact nodup_rebuildPS _ _
  · intro q
    rw [jsGet_rebuildPS, jsGet_jsSet]
    by_cases hq : q = p
    · subst hq
      simp [hpmem, jsGet_jsSet]
    · rw [if_neg hq]
      by_cases hqmem : q ∈ problemNames n
      · have hfq := jsGet_rebuildPS n ps q
        rw [hfix, if_pos hqmem] at hfq
        rw [if_pos hqmem]
        exact hfq.symm
      · have hfq := jsGet_rebuildPS n ps q
        rw [hfix, if_neg hqmem] at hfq
        rw [if_neg hqmem]
        exact hfq.symm

theorem addIfMissing_isSome_mono (t : List (String × Nat)) (k' k : String)
    (h : (jsGet t k).isSome = true) : (jsGet (addIfMissing t k') k).isSome = true := by
  unfold addIfMissing
  split
  · exact h
  · rw [jsGet_jsSet]
    by_cases hk : k = k' <;> simp [hk, h]

theorem addIfMissing_self (t : List (String × Nat)) (k : String) :
    (jsGet (addIfMissing t k) k).isSome = true := by
  unfold addIfMissing
  split
  · next h => exact h
  · simp [jsGet_jsSet_self]

theorem foldAdd_mono (ks : List String) (t : List (String × Nat)) (k : String)
    (h : (jsGet t k).isSome = true) :
    (jsGet (ks.foldl addIfMissing t) k).isSome = true := by
  induction ks generalizing t with
  | nil => exact h
  | cons k0 ks' ih => exact ih _ (addIfMissing_isSome_mono t k0 k h)

theorem foldAdd_present (ks : List String) (t : List (String × Nat)) (k : String)
    (hk : k ∈ ks) : (jsGet (ks.foldl addIfMissing t) k).isSome = true := by
  induction ks generalizing t with
  | nil => simp at hk
  | cons k0 ks' ih =>
    rw [List.foldl_cons]
    rcases List.mem_cons.mp hk with hk0 | hk'
    · subst hk0
      exact foldAdd_mono ks' _ k (addIfMissing_self t k)
    · exact ih _ hk'

theorem foldAdd_id (ks : List String) (t : List (String × Nat))
    (h : ∀ k ∈ ks, (jsGet t k).isSome = true) : ks.foldl addIfMissing t = t := by
  induction ks with
  | nil => rfl
  | cons k0 ks' ih =>
    rw [List.foldl_cons, show addIfMissing t k0 = t from by
      unfold addIfMissing; rw [h k0 (by simp)]; simp]
    exact ih (fun k hk => h k (by simp [hk]))

theorem foldAdd_get_preserve (ks : List String) (t : List (String × Nat)) (k : String)
    (v : Nat) (h : jsGet t k = some v) : jsGet (ks.foldl addIfMissing t) k = some v := by
  induction ks generalizing t with
  | nil => exact h
  | cons k0 ks' ih =>
    rw [List.foldl_cons]
    apply ih
    unfold addIfMissing
    split
    · exact h
    · next hmiss =>
      rw [jsGet_jsSet]
      by_cases hk : k = k0
      · subst hk
        rw [h] at hmiss
        simp at hmiss
      · simp [hk, h]

theorem foldAdd_get_cases (ks : List String) (t : List (String × Nat)) (k : String) :
    jsGet (ks.foldl addIfMissing t) k = jsGet t k ∨
      jsGet (ks.foldl addIfMissing t) k = some 0 := by
  induction ks generalizing t with
  | nil => exact Or.inl rfl
  | cons k0 ks' ih =>
    rw [List.foldl_cons]
    rcases ih (addIfMissing t k0) with h | h
    · rw [h]
      unfold addIfMissing
      split
      · exact Or.inl rfl
      · rw [jsGet_jsSet]
        by_cases hk : k = k0
        · simp [hk]
        · simp [hk]
    · exact Or.inr h

theorem initTimers_present (n : Nat) (t : List (String × Nat)) (k : String)
    (hk : k ∈ timerKeys n) : (jsGet (initTimers n t) k).isSome = true :=
  foldAdd_present _ t k hk

theorem initTimers_id_of_present (n : Nat) (t : List (String × Nat))
    (h : ∀ k ∈ timerKeys n, (jsGet t k).isSome = true) : initTimers n t = t :=
  foldAdd_id _ t h

theorem initTimers_idem (n : Nat) (t : List (String × Nat)) :
    initTimers n (initTimers n t) = initTimers n t :=
  initTimers_id_of_present n _ (fun k hk => initTimers_present n t k hk)

theorem initTimers_preserve (n : Nat) (t : List (String × Nat)) (k : String) (v : Nat)
    (h : jsGet t k = some v) : jsGet (initTimers n t) k = some v :=
  foldAdd_get_preserve _ t k v h

theorem lockInitEffect_idem (s : AppState) :
    lockInitEffect (lockInitEffect s) = lockInitEffect s := by
  obtain ⟨np, lk, tm, run, ta, ps, lg, at'⟩ := s
  by_cases hc : (lk && numNotEmpty np) = true
  · simp [lockInitEffect, hc, rebuildPS_idem, initTimers_idem]
  · simp [lockInitEffect, hc]

theorem lockInitEffect_eq_self_of (s s' : AppState) (h : lockInitEffect s = s)
    (hlk : s'.isNumProblemsLocked = s.isNumProblemsLocked)
    (hnp : s'.numProblems = s.numProblems)
    (hps : s'.problemStates = s.problemStates)
    (htm : ∀ k, (jsGet s'.actionTimers k).isSome = (jsGet s.actionTimers k).isSome) :
    lockInitEffect s' = s' := by
  by_cases hc : (s.isNumProblemsLocked && numNotEmpty s.numProblems) = true
  · unfold lockInitEffect at h
    rw [if_pos hc] at h
    have hrb : rebuildPS (numLength s.numProblems) s.problemStates = s.problemStates :=
      congrArg AppState.problemStates h
    have hit : initTimers (numLength s.numProblems) s.actionTimers = s.actionTimers :=
      congrArg AppState.actionTimers h
    unfold lockInitEffect
    rw [if_pos (by rw [hlk, hnp]; exact hc)]
    have hrb' : rebuildPS (numLength s'.numProblems) s'.problemStates = s'.problemStates := by
      rw [hnp, hps]
      exact hrb
    have hit' : initTimers (numLength s'.numProblems) s'.actionTimers = s'.actionTimers := by
      rw [hnp]
      apply initTimers_id_of_present
      intro k hk
      rw [htm k]
      rw [← hit]
      exact initTimers_present _ _ _ hk
    rw [hrb', hit']
  · unfold lockInitEffect
    rw [if_neg (by rw [hlk, hnp]; exact hc)]

/-! ## Save/load roundtrip lemmas -/

theorem jsGet_saveAll_timers (s : AppState) (st : Store) :
    jsGet (saveAll s st) "actionTimers" = some (encodeTimers s.actionTimers) := by
  simp only [saveAll]
  rw [jsGet_jsSet_self]

theorem jsGet_saveAll_logs (s : AppState) (st : Store) :
    jsGet (saveAll s st) "logs" = some (encodeLogs s.logs) := by
  simp only [saveAll]
  rw [jsGet_jsSet_ne _ _ _ _ (by decide), jsGet_jsSet_self]

theorem jsGet_saveAll_ps (s : AppState) (st : Store) :
    jsGet (saveAll s st) "problemStates" = some (encodePS s.problemStates) := by
  simp only [saveAll]
  rw [jsGet_jsSet_ne _ _ _ _ (by decide), jsGet_jsSet_ne _ _ _ _ (by decide),
    jsGet_jsSet_self]

theorem jsGet_saveAll_ta (s : AppState) (st : Store) :
    jsGet (saveAll s st) "teamActions" = some (encodeTA s.teamActions) := by
  simp only [saveAll]
  rw [jsGet_jsSet_ne _ _ _ _ (by decide), jsGet_jsSet_ne _ _ _ _ (by decide),
    jsGet_jsSet_ne _ _ _ _ (by decide), jsGet_jsSet_self]

theorem jsGet_saveAll_run (s : AppState) (st : Store) :
    jsGet (saveAll s st) "isRunning" = some (boolStr s.isRunning) := by
  simp only [saveAll]
  rw [jsGet_jsSet_ne _ _ _ _ (by decide), jsGet_jsSet_ne _ _ _ _ (by decide),
    jsGet_jsSet_ne _ _ _ _ (by decide), jsGet_jsSet_ne _ _ _ _ (by decide),
    jsGet_jsSet_self]

theorem jsGet_saveAll_time (s : AppState) (st : Store) :
    jsGet (saveAll s st) "time" = some (String.mk (natReprC s.time)) := by
  simp only [saveAll]
  rw [jsGet_jsSet_ne _ _ _ _ (by decide), jsGet_jsSet_ne _ _ _ _ (by decide),
    jsGet_jsSet_ne _ _ _ _ (by decide), jsGet_jsSet_ne _ _ _ _ (by decide),
    jsGet_jsSet_ne _ _ _ _ (by decide), jsGet_jsSet_self]

theorem jsGet_saveAll_locked (s : AppState) (st : Store) :
    jsGet (saveAll s st) "isNumProblemsLocked" = some (boolStr s.isNumProblemsLocked) := by
  simp only [saveAll]
  rw [jsGet_jsSet_ne _ _ _ _ (by decide), jsGet_jsSet_ne _ _ _ _ (by decide),
    jsGet_jsSet_ne _ _ _ _ (by decide), jsGet_jsSet_ne _ _ _ _ (by decide),
    jsGet_jsSet_ne _ _ _ _ (by decide), jsGet_jsSet_ne _ _ _ _ (by decide),
    jsGet_jsSet_self]

theorem jsGet_saveAll_num (s : AppState) (st : Store) :
    jsGet (saveAll s st) "numProblems" =
      if numNotEmpty s.numProblems then some (numStr s.numProblems)
      else jsGet st "numProblems" := by
  simp only [saveAll]
  rw [jsGet_jsSet_ne _ _ _ _ (by decide), jsGet_jsSet_ne _ _ _ _ (by decide),
    jsGet_jsSet_ne _ _ _ _ (by decide), jsGet_jsSet_ne _ _ _ _ (by decide),
    jsGet_jsSet_ne _ _ _ _ (by decide), jsGet_jsSet_ne _ _ _ _ (by decide),
    jsGet_jsSet_ne _ _ _ _ (by decide)]
  by_cases h : numNotEmpty s.numProblems = true
  · rw [if_pos h, if_pos h, jsGet_jsSet_self]
  · rw [if_neg h, if_neg h]

theorem parseTA_rt (ta : List (String × MemberAction)) :
    parseObjTop parseMA (encodeTA ta) = some ta := by
  unfold encodeTA
  exact parseObjTop_rt parseMA encMAc (fun v c r _ => parseMA_rt v (c :: r)) ta

theorem parsePS_rt (ps : List (String × Bool)) :
    parseObjTop parseBoolLit (encodePS ps) = some ps := by
  unfold encodePS
  exact parseObjTop_rt parseBoolLit encBoolC (fun v c r _ => parseBoolLit_rt v (c :: r)) ps

theorem parseTimers_rt (tm : List (String × Nat)) :
    parseObjTop parseNatLit (encodeTimers tm) = some tm := by
  unfold encodeTimers
  exact parseObjTop_rt parseNatLit natReprC parseNatLit_sep tm

theorem parseLogs_rt (ls : List String) : parseArrTop (encodeLogs ls) = some ls := by
  unfold encodeLogs
  exact parseArrTop_rt ls

theorem parseIntM_natReprC (t : Nat) : parseIntM (String.mk (natReprC t)) = some (t : Int) := by
  have h := parseIntM_intReprC (t : Int)
  rw [show intReprC (t : Int) = natReprC t from by
    unfold intReprC
    rw [if_neg (by omega)]
    simp] at h
  exact h

theorem loadTime_saveAll (s : AppState) (st : Store) :
    loadTime (saveAll s st) = some s.time := by
  simp [loadTime, jsGet_saveAll_time, parseIntM_natReprC]

theorem loadTA_saveAll (s : AppState) (st : Store) :
    loadTA (saveAll s st) = some s.teamActions := by
  simp [loadTA, jsGet_saveAll_ta, parseTA_rt]

theorem loadPS_saveAll (s : AppState) (st : Store) :
    loadPS (saveAll s st) = some s.problemStates := by
  simp [loadPS, jsGet_saveAll_ps, parsePS_rt]

theorem loadLogs_saveAll (s : AppState) (st : Store) :
    loadLogs (saveAll s st) = some s.logs := by
  simp [loadLogs, jsGet_saveAll_logs, parseLogs_rt]

theorem loadTimers_saveAll (s : AppState) (st : Store) :
    loadTimers (saveAll s st) = some s.actionTimers := by
  simp [loadTimers, jsGet_saveAll_timers, parseTimers_rt]

theorem loadBool_saveAll_locked (s : AppState) (st : Store) :
    loadBool (saveAll s st) "isNumProblemsLocked" = s.isNumProblemsLocked := by
  unfold loadBool
  rw [jsGet_saveAll_locked]
  cases h : s.isNumProblemsLocked <;> simp [boolStr]

theorem loadBool_saveAll_run (s : AppState) (st : Store) :
    loadBool (saveAll s st) "isRunning" = s.isRunning := by
  unfold loadBool
  rw [jsGet_saveAll_run]
  cases h : s.isRunning <;> simp [boolStr]

theorem loadNum_saveAll (s : AppState) (st : Store)
    (hnp : s.numProblems = NumVal.empty → jsGet st "numProblems" = none) :
    loadNum (saveAll s st) = s.numProblems := by
  unfold loadNum
  rw [jsGet_saveAll_num]
  cases hv : s.numProblems with
  | empty => simp [numNotEmpty, hnp hv]
  | num n => simp [numNotEmpty, numStr, parseIntM_intReprC]
  | nan => simp [numNotEmpty, numStr, parseIntM_nan]

/-- Saving any state over a store that holds no stale `numProblems` value
(the only key `saveAll` can leave unwritten) and loading yields the state
back. -/
theorem loadState_saveAll (s : AppState) (st : Store)
    (hnp : s.numProblems = NumVal.empty → jsGet st "numProblems" = none) :
    loadState (saveAll s st) = some s := by
  unfold loadState
  rw [loadTime_saveAll, loadTA_saveAll, loadPS_saveAll, loadLogs_saveAll,
    loadTimers_saveAll]
  simp only []
  rw [loadNum_saveAll s st hnp, loadBool_saveAll_locked, loadBool_saveAll_run]

/-! ## Reachability and the persistence invariant -/

theorem loadNum_empty (st : Store) (h : loadNum st = NumVal.empty) :
    jsGet st "numProblems" = none := by
  unfold loadNum at h
  cases hg : jsGet st "numProblems" with
  | none => rfl
  | some str =>
    rw [hg] at h
    cases hp : parseIntM str with
    | none => simp [hp] at h
    | some k => simp [hp] at h

theorem loadState_num (st : Store) (s : AppState) (h : loadState st = some s) :
    loadNum st = s.numProblems := by
  unfold loadState at h
  cases h1 : loadTime st with
  | none => rw [h1] at h; simp at h
  | some t =>
    rw [h1] at h
    cases h2 : loadTA st with
    | none => rw [h2] at h; simp at h
    | some ta =>
      rw [h2] at h
      cases h3 : loadPS st with
      | none => rw [h3] at h; simp at h
      | some ps =>
        rw [h3] at h
        cases h4 : loadLogs st with
        | none => rw [h4] at h; simp at h
        | some lg =>
          rw [h4] at h
          cases h5 : loadTimers st with
          | none => rw [h5] at h; simp at h
          | some tm =>
            rw [h5] at h
            simp only [Option.some.injEq] at h
            rw [← h]

theorem nodup_saveAll (s : AppState) (st : Store) (h : (keyList st).Nodup) :
    (keyList (saveAll s st)).Nodup := by
  simp only [saveAll]
  have h1 : (keyList (if numNotEmpty s.numProblems = true then
      jsSet st "numProblems" (numStr s.numProblems) else st)).Nodup := by
    split
    · exact nodup_jsSet _ _ _ h
    · exact h
  exact nodup_jsSet _ _ _ (nodup_jsSet _ _ _ (nodup_jsSet _ _ _ (nodup_jsSet _ _ _
    (nodup_jsSet _ _ _ (nodup_jsSet _ _ _ (nodup_jsSet _ _ _ h1))))))

theorem nodup_removeAll (st : Store) (h : (keyList st).Nodup) :
    (keyList (removeAll st)).Nodup := by
  unfold removeAll
  exact nodup_jsRemove _ _ (nodup_jsRemove _ _ (nodup_jsRemove _ _ (nodup_jsRemove _ _
    (nodup_jsRemove _ _ (nodup_jsRemove _ _ (nodup_jsRemove _ _ (nodup_jsRemove _ _ h)))))))

theorem jsGet_jsRemove_self {α : Type} (l : List (String × α)) (k : String)
    (h : (keyList l).Nodup) : jsGet (jsRemove l k) k = none := by
  induction l with
  | nil => simp [jsRemove, jsGet]
  | cons hd tl ih =>
    obtain ⟨k₀, v₀⟩ := hd
    simp only [keyList, List.map_cons, List.nodup_cons] at h
    by_cases h0 : k₀ = k
    · subst h0
      simp only [jsRemove, if_pos rfl]
      exact jsGet_eq_none_of_not_mem tl k₀ (by simpa [keyList] using h.1)
    · simp only [jsRemove, if_neg h0, jsGet, if_neg h0]
      exact ih h.2

theorem jsGet_removeAll_num (st : Store) (h : (keyList st).Nodup) :
    jsGet (removeAll st) "numProblems" = none := by
  unfold removeAll
  rw [jsGet_jsRemove _ _ _ (by decide), jsGet_jsRemove _ _ _ (by decide),
    jsGet_jsRemove _ _ _ (by decide), jsGet_jsRemove _ _ _ (by decide),
    jsGet_jsRemove _ _ _ (by decide), jsGet_jsRemove _ _ _ (by decide),
    jsGet_jsRemove _ _ _ (by decide)]
  exact jsGet_jsRemove_self st "numProblems" h

theorem lockInitEffect_eq_self_mk (s' : AppState)
    (hc' : (s'.isNumProblemsLocked && numNotEmpty s'.numProblems) = true)
    (hrb' : rebuildPS (numLength s'.numProblems) s'.problemStates = s'.problemStates)
    (hit' : initTimers (numLength s'.numProblems) s'.actionTimers = s'.actionTimers) :
    lockInitEffect s' = s' := by
  obtain ⟨np, lk, tm, run, ta, ps, lg, at2⟩ := s'
  unfold lockInitEffect
  rw [if_pos hc']
  simp only at hrb' hit'
  rw [hrb', hit']

theorem lockInitEffect_eq_self_of_not (s' : AppState)
    (hc' : ¬((s'.isNumProblemsLocked && numNotEmpty s'.numProblems) = true)) :
    lockInitEffect s' = s' := by
  unfold lockInitEffect
  rw [if_neg hc']

theorem lockInitEffect_components (s : AppState)
    (hc : (s.isNumProblemsLocked && numNotEmpty s.numProblems) = true)
    (h : lockInitEffect s = s) :
    rebuildPS (numLength s.numProblems) s.problemStates = s.problemStates ∧
    initTimers (numLength s.numProblems) s.actionTimers = s.actionTimers := by
  unfold lockInitEffect at h
  rw [if_pos hc] at h
  exact ⟨congrArg AppState.problemStates h, congrArg AppState.actionTimers h⟩

theorem handleProblemSolved_np (s : AppState) (p : String) :
    (handleProblemSolved s p).numProblems = s.numProblems := by
  cases hrun : s.isRunning with
  | false => rw [handleProblemSolved_not_run s p hrun]
  | true => exact (handleProblemSolved_run s p hrun).2.2.1

theorem lockInitEffect_eq_self_solved (s : AppState) (p : String)
    (hp : (jsGet s.problemStates p).isSome = true) (h : lockInitEffect s = s) :
    lockInitEffect (handleProblemSolved s p) = handleProblemSolved s p := by
  cases hrun : s.isRunning with
  | false => rw [handleProblemSolved_not_run s p hrun]; exact h
  | true =>
    obtain ⟨hps, _, hnp, hlk, _, _, htm⟩ := handleProblemSolved_run s p hrun
    by_cases hc : (s.isNumProblemsLocked && numNotEmpty s.numProblems) = true
    · obtain ⟨hrb, hit⟩ := lockInitEffect_components s hc h
      apply lockInitEffect_eq_self_mk
      · rw [hlk, hnp]
        exact hc
      · rw [hnp, hps]
        exact rebuildPS_jsSet _ _ _ hp hrb
      · rw [hnp, htm]
        exact hit
    · apply lockInitEffect_eq_self_of_not
      rw [hlk, hnp]
      exact hc

theorem lockProblemCount_np (n : Int) (s : AppState) :
    (lockProblemCount n s).numProblems = NumVal.num n := by
  unfold lockProblemCount lockInitEffect handleNumProblemsSubmit
  repeat' split
  all_goals simp

/-- The invariant tying a reachable state to its write-through store: the
store loads back to exactly the state, the lock-initialization effect is a
fixpoint (so a reload reconstructs the same state), and the store has no
duplicate keys. -/
def Synced (s : AppState) (st : Store) : Prop :=
  loadState st = some s ∧ lockInitEffect s = s ∧ (keyList st).Nodup

/-- States of the application together with their `localStorage` contents,
as reachable through the UI from a first visit (empty store): locking a
positive problem count while unconfigured, the Start/Pause button while
configured, clock ticks while running, activity changes, marking an
existing problem solved, reset, and a page reload (which re-runs the
`useState` initializers, the lock-initialization effect and the
write-through effects). -/
inductive Reached : AppState → Store → Prop where
  | boot : Reached freshState []
  | lock (n : Int) (s : AppState) (st : Store) (hn : 0 < n)
      (hunlocked : s.isNumProblemsLocked = false) (h : Reached s st) :
      Reached (lockProblemCount n s) (saveAll (lockProblemCount n s) st)
  | toggle (s : AppState) (st : Store) (hlock : s.isNumProblemsLocked = true)
      (h : Reached s st) : Reached (toggleRunning s) (saveAll (toggleRunning s) st)
  | tickStep (s : AppState) (st : Store) (hrun : s.isRunning = true) (h : Reached s st) :
      Reached (tick s) (saveAll (tick s) st)
  | setAct (s : AppState) (st : Store) (m a : String) (p : Option String)
      (h : Reached s st) :
      Reached (handleActionChange s m a p) (saveAll (handleActionChange s m a p) st)
  | solved (s : AppState) (st : Store) (p : String)
      (hp : (jsGet s.problemStates p).isSome = true) (h : Reached s st) :
      Reached (handleProblemSolved s p) (saveAll (handleProblemSolved s p) st)
  | resetStep (s : AppState) (st : Store) (h : Reached s st) :
      Reached freshState (saveAll freshState (removeAll st))
  | reload (s : AppState) (st : Store) (h : Reached s st) :
      Reached (lockInitEffect s) (saveAll (lockInitEffect s) st)

theorem reached_synced (s : AppState) (st : Store) (h : Reached s st) : Synced s st := by
  induction h with
  | boot =>
    refine ⟨by decide, by decide, by simp [keyList]⟩
  | lock n s st hn hunlocked h ih =>
    obtain ⟨ihl, ihe, ihn⟩ := ih
    refine ⟨?_, ?_, nodup_saveAll _ _ ihn⟩
    · apply loadState_saveAll
      intro hemp
      rw [lockProblemCount_np] at hemp
      exact absurd hemp (by simp)
    · unfold lockProblemCount
      exact lockInitEffect_idem _
  | toggle s st hlock h ih =>
    obtain ⟨ihl, ihe, ihn⟩ := ih
    refine ⟨?_, ?_, nodup_saveAll _ _ ihn⟩
    · apply loadState_saveAll
      intro hemp
      exact loadNum_empty st ((loadState_num st s ihl).trans hemp)
    · exact lockInitEffect_eq_self_of s (toggleRunning s) ihe rfl rfl rfl (fun _ => rfl)
  | tickStep s st hrun h ih =>
    obtain ⟨ihl, ihe, ihn⟩ := ih
    obtain ⟨_, _, hnp, hlk, hps, _⟩ := tick_fields s
    refine ⟨?_, ?_, nodup_saveAll _ _ ihn⟩
    · apply loadState_saveAll
      intro hemp
      rw [hnp] at hemp
      exact loadNum_empty st ((loadState_num st s ihl).trans hemp)
    · exact lockInitEffect_eq_self_of s (tick s) ihe hlk hnp hps (tick_timers_isSome s)
  | setAct s st m a p h ih =>
    obtain ⟨ihl, ihe, ihn⟩ := ih
    obtain ⟨hnp, hlk, _, _, hps, htm⟩ := handleActionChange_frame s m a p
    refine ⟨?_, ?_, nodup_saveAll _ _ ihn⟩
    · apply loadState_saveAll
      intro hemp
      rw [hnp] at hemp
      exact loadNum_empty st ((loadState_num st s ihl).trans hemp)
    · exact lockInitEffect_eq_self_of s _ ihe hlk hnp hps (fun k => by rw [htm])
  | solved s st p hp h ih =>
    obtain ⟨ihl, ihe, ihn⟩ := ih
    refine ⟨?_, lockInitEffect_eq_self_solved s p hp ihe, nodup_saveAll _ _ ihn⟩
    apply loadState_saveAll
    intro hemp
    rw [handleProblemSolved_np] at hemp
    exact loadNum_empty st ((loadState_num st s ihl).trans hemp)
  | resetStep s st h ih =>
    obtain ⟨_, _, ihn⟩ := ih
    refine ⟨?_, by decide, nodup_saveAll _ _ (nodup_removeAll st ihn)⟩
    apply loadState_saveAll
    intro _
    exact jsGet_removeAll_num st ihn
  | reload s st h ih =>
    obtain ⟨ihl, ihe, ihn⟩ := ih
    rw [ihe]
    refine ⟨?_, ihe, nodup_saveAll _ _ ihn⟩
    apply loadState_saveAll
    intro hemp
    exact loadNum_empty st ((loadState_num st s ihl).trans hemp)

/-! ## Iterated tick lemmas -/

theorem roster_mem_elim (m : String) (hm : m ∈ TEAM_MEMBERS) :
    m = "TG" ∨ m = "BJ" ∨ m = "SR" := by
  simpa [TEAM_MEMBERS] using hm

theorem tick_hit (s : AppState) (hrun : s.isRunning = true) (m : String)
    (hm : m ∈ TEAM_MEMBERS) (a : MemberAction) (ha : jsGet s.teamActions m = some a)
    (k : String) (hk : targetKey m a = some k) (v : Nat)
    (hv : jsGet s.actionTimers k = some v) :
    jsGet (tick s).actionTimers k = some (v + 1) := by
  rw [tick_timers_run s hrun]
  obtain ⟨x, hx⟩ := targetKey_shape m a k hk
  subst hx
  rcases roster_mem_elim m hm with hm' | hm' | hm'
  · subst hm'
    rw [accrue_frame_member _ _ "SR" "TG" (by decide) (by decide) (by decide) x,
      accrue_frame_member _ _ "BJ" "TG" (by decide) (by decide) (by decide) x]
    exact accrue_hit _ _ _ a ha _ hk v hv
  · subst hm'
    rw [accrue_frame_member _ _ "SR" "BJ" (by decide) (by decide) (by decide) x]
    have hv1 : jsGet (accrueMember s.teamActions s.actionTimers "TG")
        (memberKey "BJ" x) = some v := by
      rw [accrue_frame_member _ _ "TG" "BJ" (by decide) (by decide) (by decide) x]
      exact hv
    exact accrue_hit _ _ _ a ha _ hk v hv1
  · subst hm'
    have hv1 : jsGet (accrueMember s.teamActions
        (accrueMember s.teamActions s.actionTimers "TG") "BJ")
        (memberKey "SR" x) = some v := by
      rw [accrue_frame_member _ _ "BJ" "SR" (by decide) (by decide) (by decide) x,
        accrue_frame_member _ _ "TG" "SR" (by decide) (by decide) (by decide) x]
      exact hv
    exact accrue_hit _ _ _ a ha _ hk v hv1

theorem tick_frame_member (s : AppState) (m : String) (hm : m ∈ TEAM_MEMBERS)
    (a : MemberAction) (ha : jsGet s.teamActions m = some a) (k : String)
    (hk : targetKey m a = some k) (t' : String) (hne : memberKey m t' ≠ k) :
    jsGet (tick s).actionTimers (memberKey m t') = jsGet s.actionTimers (memberKey m t') := by
  apply tick_get_frame
  intro m₀ hm₀ a₀ ha₀ hcontra
  by_cases hmm : m₀ = m
  · subst hmm
    have haa : a₀ = a := by
      have := ha.symm.trans ha₀
      exact ((Option.some.injEq a a₀).mp this).symm
    rw [haa, hk] at hcontra
    exact hne (Option.some.injEq _ _ |>.mp hcontra).symm
  · obtain ⟨y, hy⟩ := targetKey_shape m₀ a₀ _ hcontra
    exact memberKey_ne_cross hm₀ hm hmm y t' hy.symm

theorem tick_accrual_aux (N : Nat) :
    ∀ (s : AppState), s.isRunning = true → ∀ (m : String), m ∈ TEAM_MEMBERS →
    ∀ (a : MemberAction), jsGet s.teamActions m = some a →
    ∀ (k : String), targetKey m a = some k →
    (∀ v, jsGet s.actionTimers k = some v → jsGet (tickN N s).actionTimers k = some (v + N)) ∧
    (∀ t', memberKey m t' ≠ k →
      jsGet (tickN N s).actionTimers (memberKey m t') =
        jsGet s.actionTimers (memberKey m t')) := by
  induction N with
  | zero =>
    intro s _ m _ a _ k _
    exact ⟨fun v hv => by simpa [tickN_zero] using hv, fun t' _ => by rw [tickN_zero]⟩
  | succ n ih =>
    intro s hrun m hm a ha k hk
    have hrun' : (tick s).isRunning = true := (tick_fields s).2.1.trans hrun
    have ha' : jsGet (tick s).teamActions m = some a := by
      rw [(tick_fields s).1]
      exact ha
    obtain ⟨ih1, ih2⟩ := ih (tick s) hrun' m hm a ha' k hk
    constructor
    · intro v hv
      rw [tickN_succ, ih1 (v + 1) (tick_hit s hrun m hm a ha k hk v hv)]
      congr 1
      omega
    · intro t' hne
      rw [tickN_succ, ih2 t' hne, tick_frame_member s m hm a ha k hk t' hne]

theorem no_target_frame_aux (N : Nat) :
    ∀ (s : AppState) (m : String), m ∈ TEAM_MEMBERS →
    ∀ (a : MemberAction), jsGet s.teamActions m = some a → targetKey m a = none →
    ∀ t', jsGet (tickN N s).actionTimers (memberKey m t') =
      jsGet s.actionTimers (memberKey m t') := by
  induction N with
  | zero => intro s m _ a _ _ t'; rw [tickN_zero]
  | succ n ih =>
    intro s m hm a ha htk t'
    have ha' : jsGet (tick s).teamActions m = some a := by
      rw [(tick_fields s).1]
      exact ha
    rw [tickN_succ, ih (tick s) m hm a ha' htk t']
    apply tick_get_frame
    intro m₀ hm₀ a₀ ha₀ hcontra
    by_cases hmm : m₀ = m
    · subst hmm
      have haa : a₀ = a := by
        have := ha.symm.trans ha₀
        exact ((Option.some.injEq a a₀).mp this).symm
      rw [haa, htk] at hcontra
      exact Option.noConfusion hcontra
    · obtain ⟨y, hy⟩ := targetKey_shape m₀ a₀ _ hcontra
      exact memberKey_ne_cross hm₀ hm hmm y t' hy.symm

theorem handleActionChange_sets (s : AppState) (m a : String) (p : Option String)
    (hrun : s.isRunning = true) :
    (handleActionChange s m a p).teamActions =
      jsSet s.teamActions m ⟨a, if optTruthy p then p else none⟩ := by
  unfold handleActionChange
  rw [if_neg (by rw [hrun]; simp)]
  repeat' split
  all_goals simp [addLog]

theorem lockProblemCount_pos_fields (n : Int) (hn : 0 < n) (s : AppState) :
    (lockProblemCount n s).problemStates = rebuildPS n.toNat s.problemStates ∧
    (lockProblemCount n s).actionTimers = initTimers n.toNat s.actionTimers ∧
    (lockProblemCount n s).isNumProblemsLocked = true := by
  obtain ⟨np, lk, tm, run, ta, ps, lg, at2⟩ := s
  simp [lockProblemCount, handleNumProblemsSubmit, lockInitEffect, numNotEmpty,
    numGtZero, numLength, hn]

/-! ## Concrete states used by the claims -/

/-- Running, one problem locked, Problem A already solved, all members idle. -/
def c1State : AppState :=
  handleProblemSolved (toggleRunning (lockProblemCount 1 freshState)) "A"

/-- Running, one problem locked, Problem A already solved, all members idle. -/
def c2State : AppState :=
  handleProblemSolved (toggleRunning (lockProblemCount 1 freshState)) "A"

/-- Spec §8 scenario after: lock 2 problems, start, TG→Solving(A), 5 ticks. -/
def scenarioTicks : AppState :=
  tickN 5 (handleActionChange (toggleRunning (lockProblemCount 2 freshState))
    "TG" "solve" (some "A"))

/-- The scenario state after `markSolved("A")`. -/
def scenarioSolved : AppState := handleProblemSolved scenarioTicks "A"

/-- A locked two-problem session. -/
def c5Locked : AppState := lockProblemCount 2 freshState

/-- A store whose `teamActions` value is not valid JSON. -/
def corruptStore : Store := [("teamActions", "notjson")]

/-! ## Claims -/

/-- C1 counterexample: with Problem A already solved and the session running,
calling `handleActionChange` with Solving(A) is not rejected: it changes the
Activity Registry and appends a log line, so the claimed
`ProblemAlreadySolved` rejection with unchanged registry and log is false. -/
theorem setActivity_solved_problem_cex :
    jsGet c1State.problemStates "A" = some true ∧ c1State.isRunning = true ∧
    (handleActionChange c1State "TG" "solve" (some "A")).teamActions ≠
      c1State.teamActions ∧
    (handleActionChange c1State "TG" "solve" (some "A")).logs ≠ c1State.logs := by
  decide

/-- C1 amended: `handleActionChange` performs no solved-problem check.  For
either working activity kind (Solving or Coding), while the session is
running it always stores the requested activity and appends the kind's log
line, even when the target problem is already solved; the
`ProblemAlreadySolved` rejection exists only in the view layer, which
disables the radio buttons of solved problems. -/
theorem setActivity_no_solved_guard (s : AppState) (m a p : String)
    (ha : a = "solve" ∨ a = "code") (hrun : s.isRunning = true) (hp : p ≠ "")
    (_hsolved : jsGet s.problemStates p = some true) :
    (handleActionChange s m a (some p)).teamActions =
      jsSet s.teamActions m ⟨a, some p⟩ ∧
    (handleActionChange s m a (some p)).logs =
      s.logs ++ [formatTime s.time ++ " " ++
        (if a = "solve" then m ++ " starts working on Problem " ++ p ++ "."
         else m ++ " begins coding for Problem " ++ p ++ ".")] ∧
    (handleActionChange s m a (some p)).problemStates = s.problemStates := by
  rcases ha with ha | ha <;> subst ha <;>
    (unfold handleActionChange
     rw [if_neg (by rw [hrun]; simp)]
     simp [optTruthy, hp, addLog, showOpt])

/-- C1 witness, exercising both the Solving and the Coding kind. -/
theorem setActivity_no_solved_guard_witness :
    (handleActionChange c1State "TG" "solve" (some "A")).teamActions =
      jsSet c1State.teamActions "TG" ⟨"solve", some "A"⟩ ∧
    (handleActionChange c1State "BJ" "code" (some "A")).teamActions =
      jsSet c1State.teamActions "BJ" ⟨"code", some "A"⟩ :=
  ⟨(setActivity_no_solved_guard c1State "TG" "solve" "A" (Or.inl rfl) (by decide)
      (by decide) (by decide)).1,
    (setActivity_no_solved_guard c1State "BJ" "code" "A" (Or.inr rfl) (by decide)
      (by decide) (by decide)).1⟩

/-- C2 counterexample: with Problem A already solved and the session running,
`handleProblemSolved` is not a no-op: it appends the solved log line again,
so the claimed rejection with unchanged Event Log is false. -/
theorem markSolved_already_solved_cex :
    jsGet c2State.problemStates "A" = some true ∧ c2State.isRunning = true ∧
    (handleProblemSolved c2State "A").logs ≠ c2State.logs := by
  decide

/-- C2 amended: `handleProblemSolved` checks only that the session is
running.  When not running it is a complete no-op; when running it sets the
status flag and appends the solved log line followed by one idle line per
member whose activity references the problem, regardless of whether the
problem was already solved (that guard exists only in the view layer, which
disables the checkbox). -/
theorem markSolved_checks_only_running (s : AppState) (p : String) :
    (s.isRunning = false → handleProblemSolved s p = s) ∧
    (s.isRunning = true →
      jsGet (handleProblemSolved s p).problemStates p = some true ∧
      (handleProblemSolved s p).logs = s.logs ++
        (formatTime s.time ++ " " ++ ("Problem " ++ p ++ " is successfully solved.")) ::
        (TEAM_MEMBERS.filter (referencesProblem s.teamActions p)).map
          (fun m => formatTime s.time ++ " " ++ (m ++ " is idle"))) := by
  constructor
  · exact handleProblemSolved_not_run s p
  · intro hrun
    obtain ⟨h1, h2, _⟩ := handleProblemSolved_run s p hrun
    exact ⟨by rw [h1, jsGet_jsSet_self], h2⟩

/-- C2 witness. -/
theorem markSolved_checks_only_running_witness :
    jsGet (handleProblemSolved c2State "A").problemStates "A" = some true :=
  ((markSolved_checks_only_running c2State "A").2 (by decide)).1

/-- C3 counterexample: in the §8 scenario the second appended log line is
`TG is idle`, not the claimed `TG is now idle.`, so the claimed pair of log
lines is not what `handleProblemSolved` appends. -/
theorem scenario_idle_message_cex :
    scenarioSolved.logs ≠ scenarioTicks.logs ++
      ["00:00:05 Problem A is successfully solved.", "00:00:05 TG is now idle."] := by
  decide

/-- C3 amended: lock 2 problems, start, TG→Solving(A), 5 ticks: TG's ledger
entry for A is 5 and TG's idle entry is 0; `markSolved("A")` then sets
ProblemStatus(A), forces TG to Idle, and appends exactly the two log lines
`Problem A is successfully solved.` and `TG is idle` (timestamped 00:00:05),
in that order. -/
theorem scenario_lock2_solve_tick5 :
    jsGet scenarioTicks.actionTimers "TG-A" = some 5 ∧
    jsGet scenarioTicks.actionTimers "TG-idle" = some 0 ∧
    jsGet scenarioSolved.problemStates "A" = some true ∧
    jsGet scenarioSolved.teamActions "TG" = some ⟨"idle", none⟩ ∧
    scenarioSolved.logs = scenarioTicks.logs ++
      ["00:00:05 Problem A is successfully solved.", "00:00:05 TG is idle"] := by
  decide

/-- C4: over any `N` ticks while running with a fixed activity assignment,
the ledger entry at a member's target key (idle, or the referenced problem)
grows by exactly `N`, and every other ledger entry of that member is
unchanged. -/
theorem tick_accrual_ledger (s : AppState) (N : Nat) (hrun : s.isRunning = true)
    (m : String) (hm : m ∈ TEAM_MEMBERS) (a : MemberAction)
    (ha : jsGet s.teamActions m = some a) (k : String) (hk : targetKey m a = some k) :
    (∀ v, jsGet s.actionTimers k = some v →
      jsGet (tickN N s).actionTimers k = some (v + N)) ∧
    (∀ t', memberKey m t' ≠ k →
      jsGet (tickN N s).actionTimers (memberKey m t') =
        jsGet s.actionTimers (memberKey m t')) :=
  tick_accrual_aux N s hrun m hm a ha k hk

/-- C4 witness. -/
theorem tick_accrual_ledger_witness :
    jsGet (tickN 3 (toggleRunning (lockProblemCount 1 freshState))).actionTimers
      (memberKey "TG" "idle") = some (0 + 3) :=
  (tick_accrual_ledger (toggleRunning (lockProblemCount 1 freshState)) 3 (by decide)
    "TG" (by decide) ⟨"idle", none⟩ (by decide) (memberKey "TG" "idle") (by decide)).1
    0 (by decide)

theorem lockProblemCount_idem (s : AppState) (n : Int) (hn : 0 < n) :
    lockProblemCount n (lockProblemCount n s) = lockProblemCount n s := by
  obtain ⟨np, lk, tm, run, ta, ps, lg, at2⟩ := s
  simp [lockProblemCount, handleNumProblemsSubmit, lockInitEffect, numNotEmpty,
    numGtZero, numLength, hn, rebuildPS_idem, initTimers_idem]

/-- C5 counterexample: after locking 2 problems, calling the lock path with
count 1 does not fail with `AlreadyLocked` leaving the Problem Set
unchanged: it rebuilds the Problem Set, dropping problem B. -/
theorem relock_changes_problem_set_cex :
    c5Locked.isNumProblemsLocked = true ∧
    (lockProblemCount 1 c5Locked).problemStates ≠ c5Locked.problemStates := by
  decide

/-- C5 amended: `lockProblemCount(n)` twice in a row is idempotent for every
positive `n`; but re-locking with `m ≠ n` is not rejected (no
`AlreadyLocked` exists in the code — re-locking is prevented only by the
view layer hiding the form once locked): the handler relocks, rebuilding
the Problem Set to exactly the first `m` letters, preserving solved flags
of retained problems, and never deleting ledger entries. -/
theorem lock_idempotent_and_relock :
    (∀ (s : AppState) (n : Int), 0 < n →
      lockProblemCount n (lockProblemCount n s) = lockProblemCount n s) ∧
    (∀ (s : AppState) (m : Int), 0 < m → s.isNumProblemsLocked = true →
      (∀ q, ((jsGet (lockProblemCount m s).problemStates q).isSome = true ↔
          q ∈ problemNames m.toNat) ∧
        (q ∈ problemNames m.toNat →
          jsGet (lockProblemCount m s).problemStates q =
            some ((jsGet s.problemStates q).getD false))) ∧
      (∀ k v, jsGet s.actionTimers k = some v →
        jsGet (lockProblemCount m s).actionTimers k = some v)) := by
  constructor
  · exact lockProblemCount_idem
  · intro s m hm _hlock
    obtain ⟨hps, htm, _⟩ := lockProblemCount_pos_fields m hm s
    constructor
    · intro q
      constructor
      · rw [hps, jsGet_rebuildPS]
        by_cases hq : q ∈ problemNames m.toNat <;> simp [hq]
      · intro hq
        rw [hps, jsGet_rebuildPS, if_pos hq]
    · intro k v hv
      rw [htm]
      exact initTimers_preserve _ _ _ _ hv

/-- C5 witness. -/
theorem lock_idempotent_and_relock_witness :
    lockProblemCount 2 (lockProblemCount 2 freshState) = lockProblemCount 2 freshState :=
  lock_idempotent_and_relock.1 freshState 2 (by decide)

/-- C6 counterexample: a persisted snapshot whose `teamActions` value is
malformed JSON makes the load throw inside `JSON.parse` (modelled as
`none`) instead of falling back to the fresh `Unconfigured` state. -/
theorem load_malformed_throws_cex :
    loadState corruptStore = none ∧ loadState corruptStore ≠ some freshState := by
  decide

/-- C6 amended: the load initializers fall back per field only when a key is
absent: an empty store yields the fresh `Unconfigured` state, and a store
holding only some fields restores exactly those fields (partial data); a
present-but-malformed JSON value makes the load throw rather than fall
back. -/
theorem load_fallback_per_field :
    loadState ([] : Store) = some freshState ∧
    loadState [("logs", encodeLogs ["x"])] = some { freshState with logs := ["x"] } := by
  constructor
  · decide
  · decide

/-- C7: for every state and store reachable through the UI from a first
visit, saving the state (the write-through effects) and loading it back
(the `useState` initializers) yields exactly the saved state in every
field. -/
theorem save_load_roundtrip (s : AppState) (st : Store) (h : Reached s st) :
    loadState (saveAll s st) = some s := by
  obtain ⟨hl, _, _⟩ := reached_synced s st h
  apply loadState_saveAll
  intro hemp
  exact loadNum_empty st ((loadState_num st s hl).trans hemp)

/-- C7 witness. -/
theorem save_load_roundtrip_witness :
    loadState (saveAll freshState []) = some freshState :=
  save_load_roundtrip freshState [] Reached.boot

/-- C8: calling `handleActionChange` while the session is not running is a
complete silent no-op: the state (activities, logs, ledger and all other
fields) is returned unchanged. -/
theorem setActivity_paused_noop (s : AppState) (m a : String) (p : Option String)
    (hrun : s.isRunning = false) : handleActionChange s m a p = s := by
  unfold handleActionChange
  rw [if_pos (by rw [hrun]; rfl)]

/-- C8 witness. -/
theorem setActivity_paused_noop_witness :
    handleActionChange freshState "TG" "solve" (some "A") = freshState :=
  setActivity_paused_noop freshState "TG" "solve" (some "A") (by decide)

/-- C9: calling `handleActionChange` while running with kind solve or code
but the problem argument omitted stores a record with that kind and no
problem target, touches no ledger entry, and on any number of subsequent
ticks no ledger entry of that member is incremented. -/
theorem setActivity_omitted_problem (s : AppState) (m : String) (hm : m ∈ TEAM_MEMBERS)
    (a : String) (ha : a = "solve" ∨ a = "code") (hrun : s.isRunning = true) :
    jsGet (handleActionChange s m a none).teamActions m = some ⟨a, none⟩ ∧
    (handleActionChange s m a none).actionTimers = s.actionTimers ∧
    ∀ N t', jsGet (tickN N (handleActionChange s m a none)).actionTimers
        (memberKey m t') =
      jsGet (handleActionChange s m a none).actionTimers (memberKey m t') := by
  have hTA := handleActionChange_sets s m a none hrun
  have hframe := handleActionChange_frame s m a none
  have hget : jsGet (handleActionChange s m a none).teamActions m = some ⟨a, none⟩ := by
    rw [hTA]
    simp [optTruthy, jsGet_jsSet_self]
  refine ⟨hget, hframe.2.2.2.2.2, ?_⟩
  intro N t'
  have htk : targetKey m ⟨a, none⟩ = none := by
    rcases ha with ha | ha <;> subst ha <;> simp [targetKey]
  exact no_target_frame_aux N _ m hm ⟨a, none⟩ hget htk t'

/-- C9 witness. -/
theorem setActivity_omitted_problem_witness :
    jsGet (handleActionChange (toggleRunning (lockProblemCount 1 freshState))
      "TG" "solve" none).teamActions "TG" = some ⟨"solve", none⟩ :=
  (setActivity_omitted_problem (toggleRunning (lockProblemCount 1 freshState)) "TG"
    (by decide) "solve" (Or.inl rfl) (by decide)).1

/-- C10: ticking never adds or removes a ledger key (a target entry is
incremented only when the key already exists), and the lock initialization
either leaves an entry unchanged or creates it with value 0. -/
theorem tick_key_invariance :
    (∀ (s : AppState) (k : String),
      (jsGet (tick s).actionTimers k = none ↔ jsGet s.actionTimers k = none)) ∧
    (∀ (n : Nat) (t : List (String × Nat)) (k : String),
      jsGet (initTimers n t) k = jsGet t k ∨ jsGet (initTimers n t) k = some 0) := by
  constructor
  · intro s k
    have h1 := tick_timers_isSome s k
    constructor
    · intro h
      rw [h] at h1
      cases hy : jsGet s.actionTimers k
      · rfl
      · rw [hy] at h1
        simp at h1
    · intro h
      rw [h] at h1
      cases hx : jsGet (tick s).actionTimers k
      · rfl
      · rw [hx] at h1
        simp at h1
  · intro n t k
    exact foldAdd_get_cases (timerKeys n) t k
